import Mathlib

/-!
Verification of the nutrient-data hydration pipeline
(`scripts/ingest_nutrients.py`, `scripts/hydrate_from_common.py`,
`scripts/ingest_common.py`).

The Python code manipulates loosely typed JSON-like values (`Dict[str, Any]`),
so we first embed a small universe `PyVal` of Python/JSON scalar and container
values, together with Python's truthiness, `str()` rendering and `dict.get`
semantics.  Fallible operations (attribute errors on non-dict values,
`int()` conversion failures) are embedded as `Except String`.

The relational store (PostgreSQL) is an external collaborator; we embed its
observable behaviour for the statements the scripts issue: tables are lists of
rows, `INSERT ... ON CONFLICT ... DO UPDATE` statements are insert-or-update
functions on those lists, and the connection's transaction is a pair of
committed/working states with `commit`/`rollback`.
-/

/-! A Python/JSON value as handled by the scripts: `None`, strings, integers,
booleans, dicts and lists.  Dicts and lists are given by the mutually
inductive `PyObj`/`PyArr` so that equality is derivable. -/

mutual
inductive PyVal where
  | none
  | str (s : String)
  | int (n : Int)
  | bool (b : Bool)
  | dict (fields : PyObj)
  | list (elems : PyArr)
  deriving DecidableEq
inductive PyObj where
  | nil
  | cons (k : String) (v : PyVal) (tail : PyObj)
  deriving DecidableEq
inductive PyArr where
  | nil
  | cons (v : PyVal) (tail : PyArr)
  deriving DecidableEq
end

/-- `d.get(key)` on a Python dict: the first binding of `key`, else `None`. -/
def PyObj.get : PyObj → String → PyVal
  | .nil, _ => .none
  | .cons k v tail, key => if k = key then v else tail.get key

/-- Number of bindings in a dict literal. -/
def PyObj.length : PyObj → Nat
  | .nil => 0
  | .cons _ _ tail => 1 + tail.length

/-- The elements of a Python list, as a Lean list. -/
def PyArr.toList : PyArr → List PyVal
  | .nil => []
  | .cons v tail => v :: tail.toList

/-- Build a `PyObj` from an association list (helper for concrete inputs). -/
def PyObj.ofList : List (String × PyVal) → PyObj
  | [] => .nil
  | (k, v) :: rest => .cons k v (ofList rest)

/-- Build a `PyArr` from a Lean list (helper for concrete inputs). -/
def PyArr.ofList : List PyVal → PyArr
  | [] => .nil
  | v :: rest => .cons v (ofList rest)

/-- Python truthiness: `None`, `""`, `0`, `False`, `{}` and `[]` are falsy,
everything else is truthy. -/
def PyVal.truthy : PyVal → Bool
  | .none => false
  | .str s => s ≠ ""
  | .int n => n ≠ 0
  | .bool b => b
  | .dict .nil => false
  | .dict _ => true
  | .list .nil => false
  | .list _ => true

mutual
/-- Python `repr` of a value (used by `str()` on containers).  String
values are single-quoted; escape sequences inside strings are not modelled
(none of the modelled data requires them). -/
def PyVal.pyRepr : PyVal → String
  | .none => "None"
  | .str s => "'" ++ s ++ "'"
  | .int n => toString n
  | .bool b => if b then "True" else "False"
  | .dict f => "\x7b" ++ f.reprFields ++ "\x7d"
  | .list e => "[" ++ e.reprElems ++ "]"
def PyObj.reprFields : PyObj → String
  | .nil => ""
  | .cons k v .nil => "'" ++ k ++ "': " ++ v.pyRepr
  | .cons k v tail => "'" ++ k ++ "': " ++ v.pyRepr ++ ", " ++ tail.reprFields
def PyArr.reprElems : PyArr → String
  | .nil => ""
  | .cons v .nil => v.pyRepr
  | .cons v tail => v.pyRepr ++ ", " ++ tail.reprElems
end

/-- Python `str()` of a value: identity on strings, `repr`-like on the rest. -/
def PyVal.pyStr : PyVal → String
  | .str s => s
  | v => v.pyRepr

mutual
/-- `json.dumps` of a value (default separators).  String escaping is not
modelled beyond the quote characters (the modelled data contains none). -/
def PyVal.dumps : PyVal → String
  | .none => "null"
  | .str s => "\"" ++ s ++ "\""
  | .int n => toString n
  | .bool b => if b then "true" else "false"
  | .dict f => "\x7b" ++ f.dumpFields ++ "\x7d"
  | .list e => "[" ++ e.dumpElems ++ "]"
def PyObj.dumpFields : PyObj → String
  | .nil => ""
  | .cons k v .nil => "\"" ++ k ++ "\": " ++ v.dumps
  | .cons k v tail => "\"" ++ k ++ "\": " ++ v.dumps ++ ", " ++ tail.dumpFields
def PyArr.dumpElems : PyArr → String
  | .nil => ""
  | .cons v .nil => v.dumps
  | .cons v tail => v.dumps ++ ", " ++ tail.dumpElems
end

/-- `v.get(key)` on an arbitrary value: succeeds only when `v` is a dict,
otherwise the Python attribute lookup raises (`AttributeError`). -/
def PyVal.dictGet : PyVal → String → Except String PyVal
  | .dict f, key => .ok (f.get key)
  | _, _ => .error "AttributeError: object has no attribute get"

/-- Iterating `v or []` in a `for` loop.  A falsy value yields no elements; a
list yields its elements.  Iterating any truthy non-list value in these
scripts fails: its elements are strings or scalars on which the body's
first `.get` raises, or the value is not iterable at all (`TypeError`), so
both are embedded as errors. -/
def PyVal.elemsOrEmpty : PyVal → Except String (List PyVal)
  | .list e => .ok e.toList
  | v => if v.truthy then .error "TypeError: value is not an iterable of dicts" else .ok []

/-- Python `int(v)`: integers pass through, booleans become 0/1, strings are
parsed as (optionally signed, whitespace-trimmed) decimal integers, and
everything else raises. -/
def pyInt : PyVal → Except String Int
  | .int n => .ok n
  | .bool b => .ok (if b then 1 else 0)
  | .str s =>
      match s.trim.toInt? with
      | some n => .ok n
      | Option.none => .error "ValueError: invalid literal for int"
  | _ => .error "TypeError: int() argument"

/-! ### SHA-256 (`hashlib.sha256(...).hexdigest()`)

Embedded over `Nat` with explicit reduction modulo `2^32`. -/

/-- Truncate to a 32-bit word. -/
def w32 (x : Nat) : Nat := x % 4294967296

/-- 32-bit right rotation (input assumed `< 2^32`). -/
def rotr32 (n x : Nat) : Nat := w32 ((x >>> n) ||| (x <<< (32 - n)))

/-- 32-bit bitwise complement (input assumed `< 2^32`). -/
def not32 (x : Nat) : Nat := x ^^^ 4294967295

/-- UTF-8 encoding of one code point. -/
def utf8EncodeChar (n : Nat) : List Nat :=
  if n < 128 then [n]
  else if n < 2048 then [192 ||| (n >>> 6), 128 ||| (n &&& 63)]
  else if n < 65536 then
    [224 ||| (n >>> 12), 128 ||| ((n >>> 6) &&& 63), 128 ||| (n &&& 63)]
  else
    [240 ||| (n >>> 18), 128 ||| ((n >>> 12) &&& 63),
     128 ||| ((n >>> 6) &&& 63), 128 ||| (n &&& 63)]

/-- UTF-8 bytes of a string (`s.encode("utf-8")`). -/
def utf8Bytes (s : String) : List Nat :=
  s.data.flatMap (fun c => utf8EncodeChar c.toNat)

/-- SHA-256 padding: append `0x80`, zero bytes, and the 64-bit big-endian
message length in bits, reaching a multiple of 64 bytes. -/
def sha256Pad (msg : List Nat) : List Nat :=
  let len := msg.length
  let zeros := (64 - ((len + 9) % 64)) % 64
  msg ++ [128] ++ List.replicate zeros 0 ++
    (List.range 8).map (fun i => ((len * 8) >>> (8 * (7 - i))) &&& 255)

/-- Split a padded message into 16-word blocks of big-endian 32-bit words. -/
def sha256Blocks (padded : List Nat) : List (List Nat) :=
  (List.range (padded.length / 64)).map (fun b =>
    (List.range 16).map (fun i =>
      let at4 := fun j => padded.getD (64 * b + 4 * i + j) 0
      (at4 0) <<< 24 ||| (at4 1) <<< 16 ||| (at4 2) <<< 8 ||| at4 3))

def sha256K : List Nat :=
  [1116352408, 1899447441, 3049323471, 3921009573, 961987163,
   1508970993, 2453635748, 2870763221, 3624381080, 310598401,
   607225278, 1426881987, 1925078388, 2162078206, 2614888103,
   3248222580, 3835390401, 4022224774, 264347078, 604807628,
   770255983, 1249150122, 1555081692, 1996064986, 2554220882,
   2821834349, 2952996808, 3210313671, 3336571891, 3584528711,
   113926993, 338241895, 666307205, 773529912, 1294757372,
   1396182291, 1695183700, 1986661051, 2177026350, 2456956037,
   2730485921, 2820302411, 3259730800, 3345764771, 3516065817,
   3600352804, 4094571909, 275423344, 430227734, 506948616,
   659060556, 883997877, 958139571, 1322822218, 1537002063,
   1747873779, 1955562222, 2024104815, 2227730452, 2361852424,
   2428436474, 2756734187, 3204031479, 3329325298]

def sha256H0 : List Nat :=
  [1779033703, 3144134277, 1013904242, 2773480762,
   1359893119, 2600822924, 528734635, 1541459225]

/-- Extend 16 message words to the 64-word schedule. -/
def sha256Schedule (ws : List Nat) : List Nat :=
  (List.range 48).foldl
    (fun acc _ =>
      let i := acc.length
      let s0 := let x := acc.getD (i - 15) 0
        rotr32 7 x ^^^ rotr32 18 x ^^^ (x >>> 3)
      let s1 := let x := acc.getD (i - 2) 0
        rotr32 17 x ^^^ rotr32 19 x ^^^ (x >>> 10)
      acc ++ [w32 (acc.getD (i - 16) 0 + s0 + acc.getD (i - 7) 0 + s1)])
    ws

/-- One SHA-256 compression round over the 8-word state. -/
def sha256Round (st : List Nat) (kw : Nat × Nat) : List Nat :=
  match st with
  | [a, b, c, d, e, f, g, h] =>
      let bs1 := rotr32 6 e ^^^ rotr32 11 e ^^^ rotr32 25 e
      let ch := (e &&& f) ^^^ (not32 e &&& g)
      let t1 := w32 (h + bs1 + ch + kw.1 + kw.2)
      let bs0 := rotr32 2 a ^^^ rotr32 13 a ^^^ rotr32 22 a
      let mj := (a &&& b) ^^^ (a &&& c) ^^^ (b &&& c)
      let t2 := w32 (bs0 + mj)
      [w32 (t1 + t2), a, b, c, w32 (d + t1), e, f, g]
  | st => st

/-- Compress one block into the running hash state. -/
def sha256Compress (h : List Nat) (block : List Nat) : List Nat :=
  let st := (sha256K.zip (sha256Schedule block)).foldl sha256Round h
  List.zipWith (fun x y => w32 (x + y)) h st

def hexDigit (n : Nat) : Char := "0123456789abcdef".data.getD n '0'

/-- Lowercase 8-digit hex rendering of a 32-bit word. -/
def toHex8 (x : Nat) : String :=
  String.mk ((List.range 8).map (fun i => hexDigit ((x >>> (28 - 4 * i)) &&& 15)))

/-- `hashlib.sha256(s.encode("utf-8")).hexdigest()`. -/
def sha256Hex (s : String) : String :=
  let final := (sha256Blocks (sha256Pad (utf8Bytes s))).foldl sha256Compress sha256H0
  String.join (final.map toHex8)

/-! ### Fingerprint Engine (`scripts/ingest_nutrients.py`, `_fingerprint`) -/

/-- The ordered key fields hashed into the fingerprint
(`FINGERPRINT_FIELDS` in `ingest_nutrients.py`). -/
def FINGERPRINT_FIELDS : List String :=
  ["food_name", "brand_name", "serving_unit", "serving_qty", "upc", "ndb_no"]

/-- Python `str.strip()`: remove leading and trailing whitespace.  Embedded
character-wise over `String.data` (extensionally `String.trim`, whose
byte-offset implementation does not reduce in the kernel). -/
def pyStrip (s : String) : String :=
  String.mk (((s.data.dropWhile Char.isWhitespace).reverse.dropWhile
    Char.isWhitespace).reverse)

/-- Python `str.lower()`: per-character lowercase (extensionally
`String.toLower`; ASCII data, where Lean's `Char.toLower` agrees with
Python). -/
def pyLower (s : String) : String := String.mk (s.data.map Char.toLower)

/-- Normalisation of one key field:
`"" if v is None else str(v).strip().lower()`. -/
def normKeyField (v : PyVal) : String :=
  match v with
  | .none => ""
  | v => pyLower (pyStrip v.pyStr)

/-- `"|".join(parts)`. -/
def joinBar : List String → String
  | [] => ""
  | [p] => p
  | p :: ps => p ++ "|" ++ joinBar ps

/-- The string that `_fingerprint` feeds to SHA-256: the six normalised key
fields joined by `"|"`. -/
def fingerprintBase (food : PyObj) : String :=
  joinBar (FINGERPRINT_FIELDS.map (fun k => normKeyField (food.get k)))

/-- `_fingerprint(food)`: SHA-256 hex digest of the joined normalised key
fields. -/
def _fingerprint (food : PyObj) : String :=
  sha256Hex (fingerprintBase food)

/-! ### Record Normalizer (`_row_from_food`) -/

/-- The flat parameter dict built by `_row_from_food`, i.e. the column values
bound by `UPSERT_FOOD_SQL`.  `updated_at` (`datetime.utcnow()`) is passed in
as the normalisation-time stamp `now`. -/
structure FoodRow where
  upc : PyVal
  ndb_no : PyVal
  nix_brand_id : PyVal
  nix_item_id : PyVal
  food_name : PyVal
  brand_name : PyVal
  serving_qty : PyVal
  serving_unit : PyVal
  serving_weight_grams : PyVal
  nf_calories : PyVal
  nf_total_fat : PyVal
  nf_saturated_fat : PyVal
  nf_cholesterol : PyVal
  nf_sodium : PyVal
  nf_total_carbohydrate : PyVal
  nf_dietary_fiber : PyVal
  nf_sugars : PyVal
  nf_protein : PyVal
  nf_potassium : PyVal
  nf_p : PyVal
  consumed_at : PyVal
  meal_type : PyVal
  source : PyVal
  photo_thumb_url : PyVal
  photo_highres_url : PyVal
  tag_item : PyVal
  tag_measure : PyVal
  tag_quantity : PyVal
  tag_food_group : PyVal
  tag_id : PyVal
  is_raw_food : PyVal
  fingerprint : String
  raw_payload : String
  updated_at : String
  deriving DecidableEq

/-- `_row_from_food(food)`.  `photo = food.get("photo") or {}` (likewise
`tags`, `meta`); the subsequent `.get` calls raise when the field held a
truthy non-dict value, which the `Except` captures. -/
def _row_from_food (now : String) (food : PyObj) : Except String FoodRow := do
  let photo := if (food.get "photo").truthy then food.get "photo" else .dict .nil
  let tags := if (food.get "tags").truthy then food.get "tags" else .dict .nil
  let meta := if (food.get "metadata").truthy then food.get "metadata" else .dict .nil
  let thumb ← photo.dictGet "thumb"
  let highres ← photo.dictGet "highres"
  let tItem ← tags.dictGet "item"
  let tMeasure ← tags.dictGet "measure"
  let tQuantity ← tags.dictGet "quantity"
  let tGroup ← tags.dictGet "food_group"
  let tId ← tags.dictGet "tag_id"
  let isRaw ← if meta.truthy then do
      let r ← meta.dictGet "is_raw_food"
      pure (PyVal.bool r.truthy)
    else pure PyVal.none
  return {
    upc := food.get "upc"
    ndb_no := food.get "ndb_no"
    nix_brand_id := food.get "nix_brand_id"
    nix_item_id := food.get "nix_item_id"
    food_name := food.get "food_name"
    brand_name := food.get "brand_name"
    serving_qty := food.get "serving_qty"
    serving_unit := food.get "serving_unit"
    serving_weight_grams := food.get "serving_weight_grams"
    nf_calories := food.get "nf_calories"
    nf_total_fat := food.get "nf_total_fat"
    nf_saturated_fat := food.get "nf_saturated_fat"
    nf_cholesterol := food.get "nf_cholesterol"
    nf_sodium := food.get "nf_sodium"
    nf_total_carbohydrate := food.get "nf_total_carbohydrate"
    nf_dietary_fiber := food.get "nf_dietary_fiber"
    nf_sugars := food.get "nf_sugars"
    nf_protein := food.get "nf_protein"
    nf_potassium := food.get "nf_potassium"
    nf_p := food.get "nf_p"
    consumed_at := food.get "consumed_at"
    meal_type := food.get "meal_type"
    source := food.get "source"
    photo_thumb_url := thumb
    photo_highres_url := highres
    tag_item := tItem
    tag_measure := tMeasure
    tag_quantity := tQuantity
    tag_food_group := tGroup
    tag_id := tId
    is_raw_food := isRaw
    fingerprint := _fingerprint food
    raw_payload := (PyVal.dict food).dumps
    updated_at := now }

/-! ### The relational store

Tables are lists of rows; the `ON CONFLICT` upsert statements become
insert-or-update functions.  Surrogate keys (`nutrient_food.id`, a serial
column) are modelled by the counter `next_id`. -/

/-- One `nutrient_food` row: serial surrogate key plus the upserted columns. -/
structure FoodEntry where
  id : Nat
  row : FoodRow
  deriving DecidableEq

/-- One `nutrient_alt_measure` row (the columns bound by
`UPSERT_ALT_MEASURE_SQL`). -/
structure AltRow where
  food_id : Nat
  measure : PyVal
  qty : PyVal
  seq : PyVal
  seq_key : PyVal
  serving_weight : PyVal
  deriving DecidableEq

/-- One `nutrient_value` row (the columns bound by `UPSERT_VALUE_SQL`). -/
structure ValueRow where
  food_id : Nat
  attr_id : Int
  value : PyVal
  deriving DecidableEq

/-- One `common_food` row, restricted to the columns the hydration script
reads (`_fetch_common_batch`) plus the `updated_at` ordering key. -/
structure CommonRow where
  tag_id : Int
  tag_name : PyVal
  food_name : PyVal
  serving_qty : PyVal
  serving_unit : PyVal
  updated_at : Nat
  deriving DecidableEq

/-- The database state visible to the pipeline. -/
structure DB where
  nutrient_food : List FoodEntry
  next_id : Nat
  nutrient_alt_measure : List AltRow
  nutrient_value : List ValueRow
  common_food : List CommonRow
  common_to_nutrient_map : List (Int × Nat)
  deriving DecidableEq

/-- The common shape of the three `INSERT ... ON CONFLICT ... DO UPDATE`
statements: rows whose conflict key (`key`) collides with the incoming row
are updated (`upd` overwrites exactly the columns named in the `DO UPDATE
SET` list), otherwise the row is appended. -/
def sqlUpsert {α κ : Type} [DecidableEq κ] (key : α → κ) (upd : α → α → α)
    (t : List α) (r : α) : List α :=
  if t.any (fun x => key x == key r) then
    t.map (fun x => if key x == key r then upd r x else x)
  else t ++ [r]

/-- Conflict key of `UPSERT_FOOD_SQL`: `ON CONFLICT (fingerprint)`. -/
def foodKey (e : FoodEntry) : String := e.row.fingerprint

/-- The `DO UPDATE SET` list of `UPSERT_FOOD_SQL` overwrites every column
except the conflict key `fingerprint`; on conflict the stored fingerprint
equals the incoming one, so this amounts to replacing the stored row. -/
def foodUpd (r x : FoodEntry) : FoodEntry := { x with row := r.row }

/-- `UPSERT_FOOD_SQL ... RETURNING id`: insert-or-update keyed by
fingerprint; the returned surrogate key is the conflicting row's `id` when
there is one, else the freshly assigned serial. -/
def upsertFood (db : DB) (row : FoodRow) : Nat × DB :=
  match db.nutrient_food.find? (fun e => foodKey e == row.fingerprint) with
  | some e =>
      (e.id,
       { db with nutrient_food := sqlUpsert foodKey foodUpd db.nutrient_food ⟨db.next_id, row⟩ })
  | Option.none =>
      (db.next_id, { db with
        nutrient_food := sqlUpsert foodKey foodUpd db.nutrient_food ⟨db.next_id, row⟩,
        next_id := db.next_id + 1 })

/-- Conflict key of `UPSERT_ALT_MEASURE_SQL`: `ON CONFLICT ON CONSTRAINT
nutrient_alt_measure_pkey`.  Modelled from the spec: the primary-key
constraint is declared in schema DDL that is not among the sources; per the
spec, AltMeasure identity is composite (owning record, measure,
sequence-key), so the conflict key is `(food_id, measure, seq_key)`. -/
def altKey (x : AltRow) : Nat × PyVal × PyVal := (x.food_id, x.measure, x.seq_key)

/-- `DO UPDATE SET qty = EXCLUDED.qty, serving_weight =
EXCLUDED.serving_weight`. -/
def altUpd (r x : AltRow) : AltRow :=
  { x with qty := r.qty, serving_weight := r.serving_weight }

/-- `UPSERT_ALT_MEASURE_SQL`. -/
def upsertAltMeasure (db : DB) (r : AltRow) : DB :=
  { db with nutrient_alt_measure := sqlUpsert altKey altUpd db.nutrient_alt_measure r }

/-- Conflict key of `UPSERT_VALUE_SQL`: `ON CONFLICT (food_id, attr_id)`. -/
def valKey (x : ValueRow) : Nat × Int := (x.food_id, x.attr_id)

/-- `DO UPDATE SET value = EXCLUDED.value`. -/
def valUpd (r x : ValueRow) : ValueRow := { x with value := r.value }

/-- `UPSERT_VALUE_SQL`. -/
def upsertValue (db : DB) (r : ValueRow) : DB :=
  { db with nutrient_value := sqlUpsert valKey valUpd db.nutrient_value r }

/-! ### Upsert Writer (`upsert_nutrients_batch`) -/

/-- The `alt_measures` loop body up to its `continue` guard: read `measure`,
skip the row when it is falsy (`if not measure: continue`), otherwise build
the parameter row, mapping an absent `seq` to the `-1` sentinel `seq_key`. -/
def altParams (food_id : Nat) (m : PyVal) : Except String (Option AltRow) := do
  let measure ← m.dictGet "measure"
  if !measure.truthy then return Option.none
  let seq ← m.dictGet "seq"
  let qty ← m.dictGet "qty"
  let sw ← m.dictGet "serving_weight"
  return some ⟨food_id, measure, qty, seq,
    (if seq = PyVal.none then PyVal.int (-1) else seq), sw⟩

/-- The `full_nutrients` loop body up to its `continue` guard: read
`attr_id`, skip the row when it is `None`, otherwise convert it with
`int(...)` and build the parameter row. -/
def valueParams (food_id : Nat) (n : PyVal) : Except String (Option ValueRow) := do
  let attr ← n.dictGet "attr_id"
  if attr = PyVal.none then return Option.none
  let a ← pyInt attr
  let v ← n.dictGet "value"
  return some ⟨food_id, a, v⟩

/-- One iteration of the `alt_measures` loop. -/
def altStep (food_id : Nat) (db : DB) (m : PyVal) : Except String DB := do
  match ← altParams food_id m with
  | Option.none => return db
  | some r => return upsertAltMeasure db r

/-- The `alt_measures` loop. -/
def altFold (food_id : Nat) (db : DB) (ms : List PyVal) : Except String DB :=
  ms.foldlM (altStep food_id) db

/-- One iteration of the `full_nutrients` loop. -/
def valueStep (food_id : Nat) (db : DB) (n : PyVal) : Except String DB := do
  match ← valueParams food_id n with
  | Option.none => return db
  | some r => return upsertValue db r

/-- The `full_nutrients` loop. -/
def valueFold (food_id : Nat) (db : DB) (ns : List PyVal) : Except String DB :=
  ns.foldlM (valueStep food_id) db

/-- The body of the `for food in foods` loop in `upsert_nutrients_batch`:
normalise, upsert the parent (capturing the returned id), then the two child
loops.  A raised exception abandons the unit of work, whose uncommitted
writes are only ever discarded by the caller's rollback, so the `Except`
error carries no intermediate state. -/
def upsertOneFood (now : String) (db : DB) (food : PyObj) :
    Except String (Nat × DB) := do
  let base_row ← _row_from_food now food
  let (food_id, db1) := upsertFood db base_row
  let ms ← (food.get "alt_measures").elemsOrEmpty
  let db2 ← altFold food_id db1 ms
  let ns ← (food.get "full_nutrients").elemsOrEmpty
  let db3 ← valueFold food_id db2 ns
  return (food_id, db3)

/-- `upsert_nutrients_batch(conn, foods)`: run the loop body over the foods
in order, collecting one returned id per food (`ids.append(food_id)`),
written as the equivalent structural recursion. -/
def upsert_nutrients_batch (now : String) (db : DB) :
    List PyObj → Except String (List Nat × DB)
  | [] => .ok ([], db)
  | food :: rest => do
      let (i, db1) ← upsertOneFood now db food
      let (is, db2) ← upsert_nutrients_batch now db1 rest
      return (i :: is, db2)

/-! ### Backlog Drainer (`scripts/hydrate_from_common.py`) -/

def PULL_BATCH : Nat := 50

/-- `_build_query(row)`: `f"{qty} {unit} {name}"` when `qty and unit` are
truthy, else `str(name)`, where `name = row.get("tag_name") or
row.get("food_name")`. -/
def _build_query (row : CommonRow) : String :=
  let qty := row.serving_qty
  let unit := row.serving_unit
  let name := if row.tag_name.truthy then row.tag_name else row.food_name
  if qty.truthy && unit.truthy then
    qty.pyStr ++ " " ++ unit.pyStr ++ " " ++ name.pyStr
  else
    name.pyStr

/-- The rows of `common_food` with no `common_to_nutrient_map` row
(the `LEFT JOIN ... WHERE m.tag_id IS NULL` filter). -/
def unlinked (db : DB) : List CommonRow :=
  db.common_food.filter (fun cf =>
    !(db.common_to_nutrient_map.any (fun m => m.1 == cf.tag_id)))

/-- Insert into a list sorted by `updated_at` descending. -/
def insertDesc (r : CommonRow) : List CommonRow → List CommonRow
  | [] => [r]
  | x :: xs => if r.updated_at ≤ x.updated_at then x :: insertDesc r xs
      else r :: x :: xs

/-- `ORDER BY cf.updated_at DESC` (insertion sort). -/
def sortDesc : List CommonRow → List CommonRow
  | [] => []
  | r :: rs => insertDesc r (sortDesc rs)

/-- `_fetch_common_batch(conn)`: the unlinked rows, most recently updated
first, limited to `PULL_BATCH`. -/
def _fetch_common_batch (db : DB) : List CommonRow :=
  (sortDesc (unlinked db)).take PULL_BATCH

/-- Outcome of `_call_natural_nutrients`: the parsed `foods` list on a 2xx
response, a `requests.HTTPError` from `raise_for_status()` on an error
status, or a transport failure. -/
inductive ApiResult where
  | ok (foods : List PyObj)
  | httpError (status : Nat)
  | transportError
  deriving DecidableEq

/-- `_insert_mappings(conn, tag_id, nutrient_ids)`: insert `(tag_id, nid)`
pairs with `ON CONFLICT (tag_id, nutrient_food_id) DO NOTHING`
(the `if not nutrient_ids: return` fast path is the empty fold). -/
def _insert_mappings (db : DB) (tag_id : Int) (nutrient_ids : List Nat) : DB :=
  nutrient_ids.foldl (fun db nid =>
    if db.common_to_nutrient_map.any (fun m => m.1 == tag_id && m.2 == nid) then db
    else { db with common_to_nutrient_map := db.common_to_nutrient_map ++ [(tag_id, nid)] })
    db

/-- A psycopg connection with `autocommit=False`: the committed database
state and the working state holding uncommitted writes. -/
structure Conn where
  committed : DB
  working : DB
  deriving DecidableEq

def Conn.commit (c : Conn) : Conn := ⟨c.working, c.working⟩

def Conn.rollback (c : Conn) : Conn := ⟨c.committed, c.committed⟩

/-- The per-tag console outcome printed by `main` (ok / skip / http error /
generic error). -/
inductive TagOutcome where
  | ok (tag_id : Int) (nFoods : Nat)
  | skip (query : String)
  | httpErr (status : Nat) (query : String)
  | err (tag_id : Int) (query : String)
  deriving DecidableEq

/-- The body of `for row in batch` in `main`: build the query, call the API;
on an error status or transport failure roll back and record the failure; on
zero foods record a skip (no commit, no rollback — nothing was written); on
foods, upsert them, insert the mappings and commit; an exception anywhere in
the unit of work rolls back. -/
def processTag (api : String → ApiResult) (now : String) (c : Conn)
    (row : CommonRow) : Conn × TagOutcome :=
  let query := _build_query row
  match api query with
  | .httpError s => (c.rollback, .httpErr s query)
  | .transportError => (c.rollback, .err row.tag_id query)
  | .ok foods =>
      if foods.isEmpty then (c, .skip query)
      else
        match upsert_nutrients_batch now c.working foods with
        | .error _ => (c.rollback, .err row.tag_id query)
        | .ok (ids, db) =>
            (Conn.commit ⟨c.committed, _insert_mappings db row.tag_id ids⟩,
             .ok row.tag_id ids.length)

/-- One pass over a fetched batch, in order, collecting the outcomes. -/
def processBatch (api : String → ApiResult) (now : String) (c : Conn) :
    List CommonRow → Conn × List TagOutcome
  | [] => (c, [])
  | r :: rs =>
      let (c1, o) := processTag api now c r
      let (c2, os) := processBatch api now c1 rs
      (c2, o :: os)

/-- The `while True` drain loop of `main`, with explicit fuel: fetch a batch;
an empty batch stops the loop (`break`), otherwise process it and repeat.
`Option.none` means the fuel ran out before the loop stopped. -/
def drainLoop (api : String → ApiResult) (now : String) :
    Nat → Conn → List TagOutcome → Option (Conn × List TagOutcome)
  | 0, _, _ => Option.none
  | fuel + 1, c, log =>
      let batch := _fetch_common_batch c.working
      if batch.isEmpty then some (c, log)
      else
        let (c1, os) := processBatch api now c batch
        drainLoop api now fuel c1 (log ++ os)


/-! ### Generic lemmas about `sqlUpsert` tables

Throughout, `key` is the conflict key and `upd` the `DO UPDATE SET`
overwrite; the hypotheses used are
`hku` (the update does not rewrite key columns),
`habs` (a later overwrite absorbs an earlier one), and
`hself` (overwriting a row with its own values is the identity),
which hold for all three instantiations. -/

section SqlUpsertLemmas

variable {α κ : Type} [DecidableEq κ] {key : α → κ} {upd : α → α → α}

lemma any_key_iff {t : List α} {r : α} :
    (t.any (fun x => key x == key r) = true) ↔ key r ∈ t.map key := by
  rw [List.any_eq_true, List.mem_map]
  constructor
  · rintro ⟨x, hx, he⟩
    exact ⟨x, hx, beq_iff_eq.mp he⟩
  · rintro ⟨x, hx, he⟩
    exact ⟨x, hx, beq_iff_eq.mpr he⟩

lemma sqlUpsert_map_key
    (hku : ∀ r x, key x = key r → key (upd r x) = key x)
    (t : List α) (r : α) :
    (sqlUpsert key upd t r).map key =
      if key r ∈ t.map key then t.map key else t.map key ++ [key r] := by
  unfold sqlUpsert
  by_cases h : key r ∈ t.map key
  · rw [if_pos (any_key_iff.mpr h), if_pos h, List.map_map]
    apply List.map_congr_left
    intro x _
    by_cases hx : key x = key r
    · simp [hx, hku r x hx]
    · simp [hx]
  · rw [if_neg (by simpa using fun hc => h (any_key_iff.mp hc)), if_neg h]
    simp

lemma mem_key_sqlUpsert_self
    (hku : ∀ r x, key x = key r → key (upd r x) = key x)
    (t : List α) (r : α) :
    key r ∈ (sqlUpsert key upd t r).map key := by
  rw [sqlUpsert_map_key hku]
  by_cases h : key r ∈ t.map key <;> simp [h]

lemma mem_key_sqlUpsert_mono
    (hku : ∀ r x, key x = key r → key (upd r x) = key x)
    {t : List α} {k : κ} (r : α) (h : k ∈ t.map key) :
    k ∈ (sqlUpsert key upd t r).map key := by
  rw [sqlUpsert_map_key hku]
  by_cases hm : key r ∈ t.map key <;> simp [hm, h]

lemma mem_key_foldl_mono
    (hku : ∀ r x, key x = key r → key (upd r x) = key x)
    {k : κ} (ps : List α) :
    ∀ {t : List α}, k ∈ t.map key → k ∈ (ps.foldl (sqlUpsert key upd) t).map key := by
  induction ps with
  | nil => intro t h; simpa using h
  | cons p ps ih =>
      intro t h
      exact ih (mem_key_sqlUpsert_mono hku p h)

lemma sqlUpsert_nodup_key
    (hku : ∀ r x, key x = key r → key (upd r x) = key x)
    {t : List α} (r : α) (h : (t.map key).Nodup) :
    ((sqlUpsert key upd t r).map key).Nodup := by
  rw [sqlUpsert_map_key hku]
  by_cases hm : key r ∈ t.map key
  · simpa [hm] using h
  · simp only [hm, if_false]
    rw [List.nodup_append]
    exact ⟨h, List.nodup_singleton _, by simpa [List.disjoint_singleton] using hm⟩

lemma foldl_nodup_key
    (hku : ∀ r x, key x = key r → key (upd r x) = key x)
    (ps : List α) :
    ∀ {t : List α}, (t.map key).Nodup →
      ((ps.foldl (sqlUpsert key upd) t).map key).Nodup := by
  induction ps with
  | nil => intro t h; simpa using h
  | cons p ps ih => intro t h; exact ih (sqlUpsert_nodup_key hku p h)

lemma sqlUpsert_eq_map {t : List α} {r : α} (hmem : key r ∈ t.map key) :
    sqlUpsert key upd t r =
      t.map (fun x => if key x == key r then upd r x else x) := by
  unfold sqlUpsert
  rw [if_pos (any_key_iff.mpr hmem)]

lemma sqlUpsert_eq_append {t : List α} {r : α} (hmem : key r ∉ t.map key) :
    sqlUpsert key upd t r = t ++ [r] := by
  unfold sqlUpsert
  rw [if_neg (fun hc => hmem (any_key_iff.mp hc))]

lemma map_key_map_update
    (hku : ∀ r x, key x = key r → key (upd r x) = key x)
    (t : List α) (r : α) :
    (t.map (fun x => if key x == key r then upd r x else x)).map key = t.map key := by
  rw [List.map_map]
  apply List.map_congr_left
  intro x _
  by_cases hx : key x = key r
  · simp [hx, hku r x hx]
  · simp [hx]

lemma filter_map_update_ne
    (hku : ∀ r x, key x = key r → key (upd r x) = key x)
    {k : κ} {r : α} (h : k ≠ key r) (t : List α) :
    (t.map (fun x => if key x == key r then upd r x else x)).filter
        (fun x => key x == k) =
      t.filter (fun x => key x == k) := by
  induction t with
  | nil => rfl
  | cons x xs ih =>
      rw [List.map_cons, List.filter_cons, List.filter_cons]
      by_cases hx : key x = key r
      · have hkey : key (upd r x) = key x := hku r x hx
        have hb : (key x == key r) = true := beq_iff_eq.mpr hx
        have h1 : (key (upd r x) == k) = false :=
          beq_eq_false_iff_ne.mpr (fun hc => h (hc.symm.trans (hkey.trans hx)))
        have h2 : (key x == k) = false :=
          beq_eq_false_iff_ne.mpr (fun hc => h (hc.symm.trans hx))
        simp only [hb, ite_true, h1, h2, Bool.false_eq_true, if_false]
        exact ih
      · have hb : (key x == key r) = false := beq_eq_false_iff_ne.mpr hx
        simp only [hb, Bool.false_eq_true, ite_false]
        rw [ih]

lemma sqlUpsert_filter_ne
    (hku : ∀ r x, key x = key r → key (upd r x) = key x)
    {t : List α} {k : κ} {r : α} (h : k ≠ key r) :
    (sqlUpsert key upd t r).filter (fun x => key x == k) =
      t.filter (fun x => key x == k) := by
  by_cases hm : key r ∈ t.map key
  · rw [sqlUpsert_eq_map hm]
    exact filter_map_update_ne hku h t
  · rw [sqlUpsert_eq_append hm, List.filter_append]
    have : (key r == k) = false := by simp; exact fun hc => h hc.symm
    simp [this]

lemma foldl_filter_not_mem
    (hku : ∀ r x, key x = key r → key (upd r x) = key x)
    {k : κ} (ps : List α) (hps : ∀ p ∈ ps, key p ≠ k) :
    ∀ {t : List α},
      (ps.foldl (sqlUpsert key upd) t).filter (fun x => key x == k) =
        t.filter (fun x => key x == k) := by
  induction ps with
  | nil => intro t; rfl
  | cons p ps ih =>
      intro t
      rw [List.foldl_cons, ih (fun q hq => hps q (List.mem_cons_of_mem p hq))]
      exact sqlUpsert_filter_ne hku (Ne.symm (hps p (List.mem_cons_self p ps)))

lemma sqlUpsert_fixed {t : List α} {r : α}
    (hfix : ∀ y ∈ t, key y = key r → upd r y = y) (hmem : key r ∈ t.map key) :
    sqlUpsert key upd t r = t := by
  rw [sqlUpsert_eq_map hmem]
  have : t.map (fun x => if key x == key r then upd r x else x) = t.map id := by
    apply List.map_congr_left
    intro x hx
    by_cases h : key x = key r
    · simp [h, hfix x hx h]
    · simp [h]
  rw [this, List.map_id]

lemma sqlUpsert_fixed_members
    (habs : ∀ p r x, upd p (upd r x) = upd p x) (hself : ∀ r, upd r r = r)
    {t : List α} {r : α} :
    ∀ y ∈ sqlUpsert key upd t r, key y = key r → upd r y = y := by
  intro y hy hkey
  by_cases hm : key r ∈ t.map key
  · rw [sqlUpsert_eq_map hm] at hy
    obtain ⟨x, hx, hfx⟩ := List.mem_map.mp hy
    by_cases hxr : key x = key r
    · rw [if_pos (beq_iff_eq.mpr hxr)] at hfx
      rw [← hfx, habs]
    · rw [if_neg (by simpa using hxr)] at hfx
      exact absurd (hfx ▸ hkey) hxr
  · rw [sqlUpsert_eq_append hm] at hy
    rcases List.mem_append.mp hy with h | h
    · exact absurd (hkey ▸ List.mem_map_of_mem key h) hm
    · rw [List.mem_singleton.mp h]
      exact hself r

lemma sqlUpsert_sqlUpsert_same
    (hku : ∀ r x, key x = key r → key (upd r x) = key x)
    (habs : ∀ p r x, upd p (upd r x) = upd p x)
    {t : List α} {r p : α} (hpr : key p = key r) (hr : key r ∈ t.map key) :
    sqlUpsert key upd (sqlUpsert key upd t r) p = sqlUpsert key upd t p := by
  have hmem1 : key p ∈ (sqlUpsert key upd t r).map key := by
    rw [sqlUpsert_eq_map hr, map_key_map_update hku]
    exact hpr ▸ hr
  rw [sqlUpsert_eq_map hmem1, sqlUpsert_eq_map hr, sqlUpsert_eq_map (hpr ▸ hr),
    List.map_map]
  apply List.map_congr_left
  intro x _
  by_cases hxr : key x = key r
  · have h1 : (key x == key r) = true := beq_iff_eq.mpr hxr
    have h2 : (key (upd r x) == key p) = true :=
      beq_iff_eq.mpr (by rw [hku r x hxr, hxr, hpr])
    have h3 : (key x == key p) = true := beq_iff_eq.mpr (hxr.trans hpr.symm)
    simp only [Function.comp, h1, h2, h3, if_true, cond_true, ite_true]
    exact habs p r x
  · have h1 : (key x == key r) = false := by simpa using hxr
    have h3 : (key x == key p) = false := by
      simpa using fun hc => hxr (hc.trans hpr)
    simp only [Function.comp, h1, h3, Bool.false_eq_true, if_false, ite_false]

lemma sqlUpsert_comm
    (hku : ∀ r x, key x = key r → key (upd r x) = key x)
    {t : List α} {r q : α}
    (hr : key r ∈ t.map key) (hne : key q ≠ key r) :
    sqlUpsert key upd (sqlUpsert key upd t r) q =
      sqlUpsert key upd (sqlUpsert key upd t q) r := by
  by_cases hq : key q ∈ t.map key
  · have hq1 : key q ∈ (sqlUpsert key upd t r).map key := by
      rw [sqlUpsert_eq_map hr, map_key_map_update hku]; exact hq
    have hr1 : key r ∈ (sqlUpsert key upd t q).map key := by
      rw [sqlUpsert_eq_map hq, map_key_map_update hku]; exact hr
    rw [sqlUpsert_eq_map hq1, sqlUpsert_eq_map hr, sqlUpsert_eq_map hr1,
      sqlUpsert_eq_map hq, List.map_map, List.map_map]
    apply List.map_congr_left
    intro x _
    by_cases hxr : key x = key r
    · have hxq : (key x == key q) = false :=
        beq_eq_false_iff_ne.mpr (fun hc => hne (hc.symm.trans hxr))
      have h1 : (key x == key r) = true := beq_iff_eq.mpr hxr
      have h2 : (key (upd r x) == key q) = false := by
        rw [hku r x hxr]
        exact hxq
      simp only [Function.comp, h1, hxq, h2, if_true, ite_true, Bool.false_eq_true,
        if_false, ite_false]
    · by_cases hxq : key x = key q
      · have h1 : (key x == key r) = false := beq_eq_false_iff_ne.mpr hxr
        have h2 : (key x == key q) = true := beq_iff_eq.mpr hxq
        have h3 : (key (upd q x) == key r) = false := by
          rw [hku q x hxq]
          exact h1
        simp only [Function.comp, h1, h2, h3, if_true, ite_true, Bool.false_eq_true,
          if_false, ite_false]
      · have h1 : (key x == key r) = false := beq_eq_false_iff_ne.mpr hxr
        have h2 : (key x == key q) = false := beq_eq_false_iff_ne.mpr hxq
        simp only [Function.comp, h1, h2, Bool.false_eq_true, if_false, ite_false]
  · have hq1 : key q ∉ (sqlUpsert key upd t r).map key := by
      rw [sqlUpsert_eq_map hr, map_key_map_update hku]; exact hq
    have hr1 : key r ∈ (t ++ [q]).map key := by
      rw [List.map_append]
      exact List.mem_append.mpr (Or.inl hr)
    rw [sqlUpsert_eq_append hq1, sqlUpsert_eq_map hr, sqlUpsert_eq_append hq,
      sqlUpsert_eq_map hr1, List.map_append]
    have hb : (key q == key r) = false := beq_eq_false_iff_ne.mpr hne
    have : ([q].map (fun x => if key x == key r then upd r x else x)) = [q] := by
      simp only [List.map_cons, List.map_nil, hb, Bool.false_eq_true, if_false]
    rw [this]

lemma foldl_absorb
    (hku : ∀ r x, key x = key r → key (upd r x) = key x)
    (habs : ∀ p r x, upd p (upd r x) = upd p x)
    (ps : List α) :
    ∀ {t : List α} {r : α}, (∃ p ∈ ps, key p = key r) → key r ∈ t.map key →
      ps.foldl (sqlUpsert key upd) (sqlUpsert key upd t r) =
        ps.foldl (sqlUpsert key upd) t := by
  induction ps with
  | nil => rintro t r ⟨p, hp, _⟩ _; exact absurd hp (List.not_mem_nil p)
  | cons p ps ih =>
      rintro t r hex hr
      by_cases hpr : key p = key r
      · rw [List.foldl_cons, List.foldl_cons,
          sqlUpsert_sqlUpsert_same hku habs hpr hr]
      · have hex' : ∃ q ∈ ps, key q = key r := by
          rcases hex with ⟨q, hq, he⟩
          rcases List.mem_cons.mp hq with h | h
          · exact absurd (h ▸ he) hpr
          · exact ⟨q, h, he⟩
        rw [List.foldl_cons, List.foldl_cons, sqlUpsert_comm hku hr hpr]
        exact ih hex' (mem_key_sqlUpsert_mono hku p hr)

lemma foldl_replay
    (hku : ∀ r x, key x = key r → key (upd r x) = key x)
    (habs : ∀ p r x, upd p (upd r x) = upd p x) (hself : ∀ r, upd r r = r)
    (ps : List α) :
    ∀ {t : List α},
      ps.foldl (sqlUpsert key upd) (ps.foldl (sqlUpsert key upd) t) =
        ps.foldl (sqlUpsert key upd) t := by
  induction ps with
  | nil => intro t; rfl
  | cons p ps ih =>
      intro t
      rw [List.foldl_cons, List.foldl_cons]
      have hmemX : key p ∈ (ps.foldl (sqlUpsert key upd)
          (sqlUpsert key upd t p)).map key :=
        mem_key_foldl_mono hku ps (mem_key_sqlUpsert_self hku t p)
      by_cases hc : ∃ q ∈ ps, key q = key p
      · rw [foldl_absorb hku habs ps hc hmemX]
        exact ih
      · push_neg at hc
        have hfix : sqlUpsert key upd
            (ps.foldl (sqlUpsert key upd) (sqlUpsert key upd t p)) p =
            ps.foldl (sqlUpsert key upd) (sqlUpsert key upd t p) := by
          apply sqlUpsert_fixed _ hmemX
          intro y hy hkey
          have hyf : y ∈ (ps.foldl (sqlUpsert key upd)
              (sqlUpsert key upd t p)).filter (fun x => key x == key p) :=
            List.mem_filter.mpr ⟨hy, beq_iff_eq.mpr hkey⟩
          rw [foldl_filter_not_mem hku ps hc] at hyf
          exact sqlUpsert_fixed_members habs hself y (List.mem_filter.mp hyf).1 hkey
        rw [hfix]
        exact ih

lemma countP_key_eq_count {t : List α} {k : κ} :
    t.countP (fun x => decide (key x = k)) = (t.map key).count k := by
  induction t with
  | nil => rfl
  | cons x xs ih =>
      rw [List.countP_cons, List.map_cons, List.count_cons, ih]
      rfl

lemma countP_key_eq_one {t : List α} {k : κ}
    (h : (t.map key).Nodup) (hm : k ∈ t.map key) :
    t.countP (fun x => decide (key x = k)) = 1 := by
  rw [countP_key_eq_count]
  exact List.count_eq_one_of_mem h hm

lemma foldl_last_value
    (hku : ∀ r x, key x = key r → key (upd r x) = key x)
    (habs : ∀ p r x, upd p (upd r x) = upd p x) (hself : ∀ r, upd r r = r)
    {t : List α} {ps1 ps2 : List α} {p : α}
    (h2 : ∀ q ∈ ps2, key q ≠ key p) :
    ∀ y ∈ (ps1 ++ p :: ps2).foldl (sqlUpsert key upd) t, key y = key p →
      upd p y = y := by
  intro y hy hkey
  rw [List.foldl_append, List.foldl_cons] at hy
  have hyf : y ∈ (ps2.foldl (sqlUpsert key upd)
      (sqlUpsert key upd (ps1.foldl (sqlUpsert key upd) t) p)).filter
        (fun x => key x == key p) :=
    List.mem_filter.mpr ⟨hy, beq_iff_eq.mpr hkey⟩
  rw [foldl_filter_not_mem hku ps2 h2] at hyf
  exact sqlUpsert_fixed_members habs hself y (List.mem_filter.mp hyf).1 hkey

lemma mem_key_foldl_param
    (hku : ∀ r x, key x = key r → key (upd r x) = key x)
    (ps : List α) :
    ∀ {t : List α} {p : α}, p ∈ ps →
      key p ∈ (ps.foldl (sqlUpsert key upd) t).map key := by
  induction ps with
  | nil => intro t p h; exact absurd h (List.not_mem_nil p)
  | cons q ps ih =>
      intro t p h
      rcases List.mem_cons.mp h with h | h
      · subst h
        exact mem_key_foldl_mono hku ps (mem_key_sqlUpsert_self hku t p)
      · exact ih h

end SqlUpsertLemmas

/-! ### Instantiations of the `sqlUpsert` hypotheses -/

lemma foodKey_upd : ∀ r x : FoodEntry, foodKey x = foodKey r →
    foodKey (foodUpd r x) = foodKey x := by
  intro r x h
  simpa [foodKey, foodUpd] using h.symm

lemma foodUpd_absorb : ∀ p r x : FoodEntry, foodUpd p (foodUpd r x) = foodUpd p x :=
  fun _ _ _ => rfl

lemma foodUpd_self : ∀ r : FoodEntry, foodUpd r r = r := fun _ => rfl

lemma altKey_upd : ∀ r x : AltRow, altKey x = altKey r →
    altKey (altUpd r x) = altKey x := fun _ _ _ => rfl

lemma altUpd_absorb : ∀ p r x : AltRow, altUpd p (altUpd r x) = altUpd p x :=
  fun _ _ _ => rfl

lemma altUpd_self : ∀ r : AltRow, altUpd r r = r := fun _ => rfl

lemma valKey_upd : ∀ r x : ValueRow, valKey x = valKey r →
    valKey (valUpd r x) = valKey x := fun _ _ _ => rfl

lemma valUpd_absorb : ∀ p r x : ValueRow, valUpd p (valUpd r x) = valUpd p x :=
  fun _ _ _ => rfl

lemma valUpd_self : ∀ r : ValueRow, valUpd r r = r := fun _ => rfl

/-- Well-formedness of the store: the conflict keys are genuinely unique,
as the uniqueness constraints named in the `ON CONFLICT` clauses enforce. -/
def DB.wfFoods (db : DB) : Prop := (db.nutrient_food.map foodKey).Nodup

def DB.wfAlts (db : DB) : Prop := (db.nutrient_alt_measure.map altKey).Nodup

def DB.wfValues (db : DB) : Prop := (db.nutrient_value.map valKey).Nodup

/-! ### Lemmas about the parent upsert -/

lemma upsertFood_update {db : DB} {row : FoodRow} {e : FoodEntry}
    (hf : db.nutrient_food.find? (fun e => foodKey e == row.fingerprint) = some e) :
    upsertFood db row =
      (e.id,
       { db with nutrient_food :=
          sqlUpsert foodKey foodUpd db.nutrient_food ⟨db.next_id, row⟩ }) := by
  unfold upsertFood
  rw [hf]

lemma upsertFood_insert {db : DB} {row : FoodRow}
    (hf : db.nutrient_food.find? (fun e => foodKey e == row.fingerprint) = Option.none) :
    upsertFood db row =
      (db.next_id,
       { db with
          nutrient_food := sqlUpsert foodKey foodUpd db.nutrient_food ⟨db.next_id, row⟩,
          next_id := db.next_id + 1 }) := by
  unfold upsertFood
  rw [hf]

lemma upsertFood_alts (db : DB) (row : FoodRow) :
    (upsertFood db row).2.nutrient_alt_measure = db.nutrient_alt_measure := by
  unfold upsertFood
  cases db.nutrient_food.find? (fun e => foodKey e == row.fingerprint) <;> rfl

lemma upsertFood_values (db : DB) (row : FoodRow) :
    (upsertFood db row).2.nutrient_value = db.nutrient_value := by
  unfold upsertFood
  cases db.nutrient_food.find? (fun e => foodKey e == row.fingerprint) <;> rfl

lemma upsertFood_common (db : DB) (row : FoodRow) :
    (upsertFood db row).2.common_food = db.common_food := by
  unfold upsertFood
  cases db.nutrient_food.find? (fun e => foodKey e == row.fingerprint) <;> rfl

lemma upsertFood_map (db : DB) (row : FoodRow) :
    (upsertFood db row).2.common_to_nutrient_map = db.common_to_nutrient_map := by
  unfold upsertFood
  cases db.nutrient_food.find? (fun e => foodKey e == row.fingerprint) <;> rfl

lemma upsertFood_foods (db : DB) (row : FoodRow) :
    (upsertFood db row).2.nutrient_food =
      sqlUpsert foodKey foodUpd db.nutrient_food ⟨db.next_id, row⟩ := by
  unfold upsertFood
  cases db.nutrient_food.find? (fun e => foodKey e == row.fingerprint) <;> rfl

/-- The alt-measure parameter rows a food's loop passes to the store: the
entries surviving the `continue` guard, in order (a derived view of the
`alt_measures` loop used to state its effect). -/
def extractAlts (fid : Nat) : List PyVal → Except String (List AltRow)
  | [] => .ok []
  | m :: ms => do
      let o ← altParams fid m
      let rest ← extractAlts fid ms
      match o with
      | some r => return r :: rest
      | Option.none => return rest

/-- The nutrient-value parameter rows a food's loop passes to the store. -/
def extractVals (fid : Nat) : List PyVal → Except String (List ValueRow)
  | [] => .ok []
  | n :: ns => do
      let o ← valueParams fid n
      let rest ← extractVals fid ns
      match o with
      | some r => return r :: rest
      | Option.none => return rest

lemma exceptPure {α : Type} (a : α) : (pure a : Except String α) = Except.ok a := rfl

lemma exceptBind_error {α β : Type} (e : String) (f : α → Except String β) :
    (Except.error e >>= f) = Except.error e := rfl

lemma exceptBind_ok {α β : Type} (a : α) (f : α → Except String β) :
    (Except.ok a >>= f) = f a := rfl

lemma exceptMap_error {α β : Type} (e : String) (f : α → β) :
    (Except.error e : Except String α).map f = Except.error e := rfl

lemma exceptMap_ok {α β : Type} (a : α) (f : α → β) :
    (Except.ok a : Except String α).map f = Except.ok (f a) := rfl

lemma altFold_eq (fid : Nat) (ms : List PyVal) :
    ∀ db : DB, altFold fid db ms =
      (extractAlts fid ms).map (fun ps =>
        { db with nutrient_alt_measure :=
            ps.foldl (sqlUpsert altKey altUpd) db.nutrient_alt_measure }) := by
  induction ms with
  | nil => intro db; rfl
  | cons m ms ih =>
      intro db
      rw [altFold, List.foldlM_cons]
      show (altStep fid db m >>= fun db1 => altFold fid db1 ms) = _
      rw [extractAlts]
      cases hp : altParams fid m with
      | error e =>
          rw [altStep, hp]
          simp only [exceptBind_error, exceptMap_error]
      | ok o =>
          rw [altStep, hp]
          simp only [exceptBind_ok]
          cases o with
          | none =>
              show altFold fid db ms = _
              rw [ih db]
              cases hms : extractAlts fid ms with
              | error e => simp only [exceptBind_error, exceptMap_error]
              | ok os => rfl
          | some r =>
              show altFold fid (upsertAltMeasure db r) ms = _
              rw [ih (upsertAltMeasure db r)]
              cases hms : extractAlts fid ms with
              | error e => simp only [exceptBind_error, exceptMap_error]
              | ok os => rfl

lemma valueFold_eq (fid : Nat) (ns : List PyVal) :
    ∀ db : DB, valueFold fid db ns =
      (extractVals fid ns).map (fun qs =>
        { db with nutrient_value :=
            qs.foldl (sqlUpsert valKey valUpd) db.nutrient_value }) := by
  induction ns with
  | nil => intro db; rfl
  | cons n ns ih =>
      intro db
      rw [valueFold, List.foldlM_cons]
      show (valueStep fid db n >>= fun db1 => valueFold fid db1 ns) = _
      rw [extractVals]
      cases hp : valueParams fid n with
      | error e =>
          rw [valueStep, hp]
          simp only [exceptBind_error, exceptMap_error]
      | ok o =>
          rw [valueStep, hp]
          simp only [exceptBind_ok]
          cases o with
          | none =>
              show valueFold fid db ns = _
              rw [ih db]
              cases hns : extractVals fid ns with
              | error e => simp only [exceptBind_error, exceptMap_error]
              | ok os => rfl
          | some r =>
              show valueFold fid (upsertValue db r) ns = _
              rw [ih (upsertValue db r)]
              cases hns : extractVals fid ns with
              | error e => simp only [exceptBind_error, exceptMap_error]
              | ok os => rfl

lemma mem_sqlUpsert_upd {α κ : Type} [DecidableEq κ] {key : α → κ} {upd : α → α → α}
    {t : List α} {r x : α} (hx : x ∈ t) (hk : key x = key r) :
    upd r x ∈ sqlUpsert key upd t r := by
  have hmem : key r ∈ t.map key := List.mem_map.mpr ⟨x, hx, hk⟩
  rw [sqlUpsert_eq_map hmem]
  exact List.mem_map.mpr ⟨x, hx, by rw [if_pos (beq_iff_eq.mpr hk)]⟩

lemma upsertFood_find?_after (db : DB) (row : FoodRow) :
    (upsertFood db row).2.nutrient_food.find? (fun e => foodKey e == row.fingerprint) =
      some ⟨(upsertFood db row).1, row⟩ := by
  cases hf : db.nutrient_food.find? (fun e => foodKey e == row.fingerprint) with
  | some e =>
      have hpe : foodKey e = row.fingerprint := by
        have hp := List.find?_some hf
        exact beq_iff_eq.mp hp
      rw [upsertFood_update hf]
      have hmem : foodKey (⟨db.next_id, row⟩ : FoodEntry) ∈ db.nutrient_food.map foodKey :=
        List.mem_map.mpr ⟨e, List.mem_of_find?_eq_some hf, hpe⟩
      rw [sqlUpsert_eq_map hmem, List.find?_map]
      have hcong : ((fun e => foodKey e == row.fingerprint) ∘
          (fun x => if foodKey x == foodKey (⟨db.next_id, row⟩ : FoodEntry)
            then foodUpd ⟨db.next_id, row⟩ x else x)) =
          (fun e => foodKey e == row.fingerprint) := by
        funext x
        simp only [Function.comp_apply]
        by_cases hx : foodKey x = row.fingerprint
        · have hb : (foodKey x == foodKey (⟨db.next_id, row⟩ : FoodEntry)) = true :=
            beq_iff_eq.mpr hx
          rw [if_pos hb]
          have h1 : foodKey (foodUpd ⟨db.next_id, row⟩ x) = row.fingerprint := rfl
          rw [h1, hx]
        · have hb : ¬ ((foodKey x == foodKey (⟨db.next_id, row⟩ : FoodEntry)) = true) :=
            fun hc => hx (beq_iff_eq.mp hc)
          rw [if_neg hb]
      rw [hcong, hf, Option.map_some']
      have hb : (foodKey e == foodKey (⟨db.next_id, row⟩ : FoodEntry)) = true :=
        beq_iff_eq.mpr hpe
      rw [if_pos hb]
      rfl
  | none =>
      rw [upsertFood_insert hf]
      have hnm : foodKey (⟨db.next_id, row⟩ : FoodEntry) ∉ db.nutrient_food.map foodKey := by
        intro hc
        obtain ⟨x, hx, hk⟩ := List.mem_map.mp hc
        exact (List.find?_eq_none.mp hf) x hx (beq_iff_eq.mpr hk)
      rw [sqlUpsert_eq_append hnm, List.find?_append, hf, Option.none_or]
      exact List.find?_cons_of_pos _ (beq_iff_eq.mpr rfl)

lemma upsertFood_mem (db : DB) (row : FoodRow) :
    (⟨(upsertFood db row).1, row⟩ : FoodEntry) ∈ (upsertFood db row).2.nutrient_food :=
  List.mem_of_find?_eq_some (upsertFood_find?_after db row)

lemma upsertFood_foods_fixed (db : DB) (row : FoodRow) (m : Nat) :
    sqlUpsert foodKey foodUpd (upsertFood db row).2.nutrient_food ⟨m, row⟩ =
      (upsertFood db row).2.nutrient_food := by
  apply sqlUpsert_fixed
  · intro y hy hkey
    rw [upsertFood_foods] at hy
    have hkey' : foodKey y = foodKey (⟨db.next_id, row⟩ : FoodEntry) := hkey
    have h2 : foodUpd ⟨db.next_id, row⟩ y = y :=
      sqlUpsert_fixed_members foodUpd_absorb foodUpd_self y hy hkey'
    exact h2
  · rw [upsertFood_foods]
    exact mem_key_sqlUpsert_self foodKey_upd _ _

lemma upsertFood_again {db db' : DB} {row : FoodRow}
    (hfoods : db'.nutrient_food = (upsertFood db row).2.nutrient_food) :
    upsertFood db' row = ((upsertFood db row).1, db') := by
  have hf : db'.nutrient_food.find? (fun e => foodKey e == row.fingerprint) =
      some ⟨(upsertFood db row).1, row⟩ := by
    rw [hfoods]
    exact upsertFood_find?_after db row
  rw [upsertFood_update hf, hfoods, upsertFood_foods_fixed, ← hfoods]

lemma upsertFood_wf (db : DB) (row : FoodRow) (h : db.wfFoods) :
    ((upsertFood db row).2).wfFoods := by
  unfold DB.wfFoods at *
  rw [upsertFood_foods]
  exact sqlUpsert_nodup_key foodKey_upd _ h

lemma upsertOneFood_ok {now : String} {db : DB} {food : PyObj} {i : Nat} {dbf : DB}
    (h : upsertOneFood now db food = .ok (i, dbf)) :
    ∃ row ms ns ps qs,
      _row_from_food now food = .ok row ∧
      (food.get "alt_measures").elemsOrEmpty = .ok ms ∧
      (food.get "full_nutrients").elemsOrEmpty = .ok ns ∧
      extractAlts (upsertFood db row).1 ms = .ok ps ∧
      extractVals (upsertFood db row).1 ns = .ok qs ∧
      i = (upsertFood db row).1 ∧
      dbf = { (upsertFood db row).2 with
        nutrient_alt_measure :=
          ps.foldl (sqlUpsert altKey altUpd) (upsertFood db row).2.nutrient_alt_measure,
        nutrient_value :=
          qs.foldl (sqlUpsert valKey valUpd) (upsertFood db row).2.nutrient_value } := by
  rw [upsertOneFood] at h
  cases hrow : _row_from_food now food with
  | error e =>
      rw [hrow, exceptBind_error] at h
      cases h
  | ok row =>
      rw [hrow, exceptBind_ok] at h
      rcases hu : upsertFood db row with ⟨fid, db1⟩
      rw [hu] at h
      dsimp only at h
      cases hms : (food.get "alt_measures").elemsOrEmpty with
      | error e =>
          rw [hms, exceptBind_error] at h
          cases h
      | ok ms =>
          rw [hms, exceptBind_ok, altFold_eq] at h
          cases hps : extractAlts fid ms with
          | error e =>
              rw [hps, exceptMap_error, exceptBind_error] at h
              cases h
          | ok ps =>
              rw [hps, exceptMap_ok, exceptBind_ok] at h
              cases hns : (food.get "full_nutrients").elemsOrEmpty with
              | error e =>
                  rw [hns, exceptBind_error] at h
                  cases h
              | ok ns =>
                  rw [hns, exceptBind_ok, valueFold_eq] at h
                  cases hqs : extractVals fid ns with
                  | error e =>
                      rw [hqs, exceptMap_error, exceptBind_error] at h
                      cases h
                  | ok qs =>
                      rw [hqs, exceptMap_ok, exceptBind_ok] at h
                      have hfid : (upsertFood db row).1 = fid := by rw [hu]
                      have hdb1 : (upsertFood db row).2 = db1 := by rw [hu]
                      simp only [exceptPure, Except.ok.injEq, Prod.mk.injEq] at h
                      refine ⟨row, ms, ns, ps, qs, rfl, rfl, rfl, ?_, ?_, ?_, ?_⟩
                      · rw [hfid]; exact hps
                      · rw [hfid]; exact hqs
                      · rw [← h.1, hfid]
                      · rw [← h.2, hdb1]

/-- C2: Upsert idempotence.  Applying the Upsert Writer (parent upsert keyed
by fingerprint, then alt-measure and nutrient-value child upserts) twice with
identical normalized input leaves the store exactly as after the first
application: the same surrogate key is returned both times, there is exactly
one parent row for the record's fingerprint carrying the written columns, and
exactly one child row per distinct child key, whose overwritten columns equal
the (last) corresponding entry of the write's input. -/
theorem c2_upsert_idempotence
    (now : String) (db : DB) (food : PyObj)
    (hwfF : db.wfFoods) (hwfA : db.wfAlts) (hwfV : db.wfValues)
    (i1 i2 : Nat) (db1 db2 : DB)
    (h1 : upsertOneFood now db food = .ok (i1, db1))
    (h2 : upsertOneFood now db1 food = .ok (i2, db2)) :
    i2 = i1 ∧ db2 = db1 ∧
    (∀ row, _row_from_food now food = .ok row →
      (⟨i1, row⟩ : FoodEntry) ∈ db2.nutrient_food ∧
      db2.nutrient_food.countP (fun e => decide (foodKey e = row.fingerprint)) = 1) ∧
    (∀ ms ps, (food.get "alt_measures").elemsOrEmpty = .ok ms →
        extractAlts i1 ms = .ok ps →
      (∀ p ∈ ps,
        db2.nutrient_alt_measure.countP (fun x => decide (altKey x = altKey p)) = 1) ∧
      (∀ psa p psb, ps = psa ++ p :: psb → (∀ q ∈ psb, altKey q ≠ altKey p) →
        ∀ x ∈ db2.nutrient_alt_measure, altKey x = altKey p →
          x.qty = p.qty ∧ x.serving_weight = p.serving_weight)) ∧
    (∀ ns qs, (food.get "full_nutrients").elemsOrEmpty = .ok ns →
        extractVals i1 ns = .ok qs →
      (∀ p ∈ qs,
        db2.nutrient_value.countP (fun x => decide (valKey x = valKey p)) = 1) ∧
      (∀ qsa p qsb, qs = qsa ++ p :: qsb → (∀ q ∈ qsb, valKey q ≠ valKey p) →
        ∀ x ∈ db2.nutrient_value, valKey x = valKey p → x.value = p.value)) := by
  obtain ⟨row, ms, ns, ps, qs, hrow, hms, hns, hps, hqs, hi1, hdb1⟩ := upsertOneFood_ok h1
  have hfoods : db1.nutrient_food = (upsertFood db row).2.nutrient_food := by
    rw [hdb1]
  have hagain : upsertFood db1 row = ((upsertFood db row).1, db1) :=
    upsertFood_again hfoods
  obtain ⟨row2, ms2, ns2, ps2, qs2, hrow2, hms2, hns2, hps2, hqs2, hi2, hdb2⟩ :=
    upsertOneFood_ok h2
  rw [hrow] at hrow2
  obtain rfl : row = row2 := Except.ok.inj hrow2
  rw [hms] at hms2
  obtain rfl : ms = ms2 := Except.ok.inj hms2
  rw [hns] at hns2
  obtain rfl : ns = ns2 := Except.ok.inj hns2
  have hup1 : (upsertFood db1 row).1 = i1 := by
    rw [hagain]
    exact hi1.symm
  have hup2 : (upsertFood db1 row).2 = db1 := by rw [hagain]
  rw [hup1] at hps2 hqs2
  have hps' : extractAlts i1 ms = .ok ps := by rw [hi1]; exact hps
  have hqs' : extractVals i1 ns = .ok qs := by rw [hi1]; exact hqs
  rw [hps'] at hps2
  obtain rfl : ps = ps2 := Except.ok.inj hps2
  rw [hqs'] at hqs2
  obtain rfl : qs = qs2 := Except.ok.inj hqs2
  rw [hup2] at hdb2
  have halto : db1.nutrient_alt_measure =
      ps.foldl (sqlUpsert altKey altUpd) db.nutrient_alt_measure := by
    rw [hdb1]
    show ps.foldl (sqlUpsert altKey altUpd) (upsertFood db row).2.nutrient_alt_measure = _
    rw [upsertFood_alts]
  have hvalo : db1.nutrient_value =
      qs.foldl (sqlUpsert valKey valUpd) db.nutrient_value := by
    rw [hdb1]
    show qs.foldl (sqlUpsert valKey valUpd) (upsertFood db row).2.nutrient_value = _
    rw [upsertFood_values]
  have haltrep : ps.foldl (sqlUpsert altKey altUpd) db1.nutrient_alt_measure =
      db1.nutrient_alt_measure := by
    rw [halto]
    exact foldl_replay altKey_upd altUpd_absorb altUpd_self ps
  have hvalrep : qs.foldl (sqlUpsert valKey valUpd) db1.nutrient_value =
      db1.nutrient_value := by
    rw [hvalo]
    exact foldl_replay valKey_upd valUpd_absorb valUpd_self qs
  have hdbeq : db2 = db1 := by
    rw [hdb2, haltrep, hvalrep]
  refine ⟨by rw [hi2, hup1], hdbeq, ?_, ?_, ?_⟩
  · intro row0 hrow0
    rw [hrow] at hrow0
    obtain rfl : row = row0 := Except.ok.inj hrow0
    have hwf1 : ((upsertFood db row).2).wfFoods := upsertFood_wf db row hwfF
    constructor
    · rw [hdbeq, hfoods, hi1]
      exact upsertFood_mem db row
    · rw [hdbeq, hfoods]
      apply countP_key_eq_one hwf1
      exact List.mem_map_of_mem foodKey (upsertFood_mem db row)
  · intro ms0 ps0 hms0 hps0
    rw [hms] at hms0
    obtain rfl : ms = ms0 := Except.ok.inj hms0
    rw [hps'] at hps0
    obtain rfl : ps = ps0 := Except.ok.inj hps0
    constructor
    · intro p hp
      rw [hdbeq, halto]
      apply countP_key_eq_one (foldl_nodup_key altKey_upd ps hwfA)
      exact mem_key_foldl_param altKey_upd ps hp
    · intro psa p psb hdec hnq x hx hkx
      rw [hdbeq, halto, hdec] at hx
      have hupd : altUpd p x = x :=
        foldl_last_value altKey_upd altUpd_absorb altUpd_self hnq x hx hkx
      exact ⟨(congrArg AltRow.qty hupd).symm,
        (congrArg AltRow.serving_weight hupd).symm⟩
  · intro ns0 qs0 hns0 hqs0
    rw [hns] at hns0
    obtain rfl : ns = ns0 := Except.ok.inj hns0
    rw [hqs'] at hqs0
    obtain rfl : qs = qs0 := Except.ok.inj hqs0
    constructor
    · intro p hp
      rw [hdbeq, hvalo]
      apply countP_key_eq_one (foldl_nodup_key valKey_upd qs hwfV)
      exact mem_key_foldl_param valKey_upd qs hp
    · intro qsa p qsb hdec hnq x hx hkx
      rw [hdbeq, hvalo, hdec] at hx
      have hupd : valUpd p x = x :=
        foldl_last_value valKey_upd valUpd_absorb valUpd_self hnq x hx hkx
      exact (congrArg ValueRow.value hupd).symm

/-! ### Fingerprint claims -/

/-- C1: Fingerprint determinism and key-field projection.  Computing the
fingerprint twice on the same record yields the same digest, and two records
that agree on the six normalized key fields (trim, lowercase, missing →
empty string) have equal fingerprints — fields outside the key set do not
enter the digest. -/
theorem c1_fingerprint_determinism (f g : PyObj)
    (h : ∀ k ∈ FINGERPRINT_FIELDS, normKeyField (f.get k) = normKeyField (g.get k)) :
    _fingerprint f = _fingerprint f ∧ _fingerprint f = _fingerprint g := by
  refine ⟨rfl, ?_⟩
  show sha256Hex (fingerprintBase f) = sha256Hex (fingerprintBase g)
  have hb : fingerprintBase f = fingerprintBase g := by
    show joinBar (FINGERPRINT_FIELDS.map (fun k => normKeyField (f.get k))) =
      joinBar (FINGERPRINT_FIELDS.map (fun k => normKeyField (g.get k)))
    rw [List.map_eq_map_iff.mpr h]
  rw [hb]

def c8f1 : PyObj := .ofList [("food_name", .str "a|")]

def c8f2 : PyObj := .ofList [("food_name", .str "a"), ("brand_name", .str "|")]

/-- C8 counterexample: two records that differ (after normalization) in the
`food_name` key field and nonetheless have equal fingerprints, because the
`"|"` separator does occur in normalized values, making the pre-hash
encoding ambiguous: both records encode to `"a||||||"`. -/
theorem c8_counterexample :
    normKeyField (c8f1.get "food_name") ≠ normKeyField (c8f2.get "food_name") ∧
    _fingerprint c8f1 = _fingerprint c8f2 := by
  constructor
  · decide
  · show sha256Hex (fingerprintBase c8f1) = sha256Hex (fingerprintBase c8f2)
    have h : fingerprintBase c8f1 = fingerprintBase c8f2 := by decide
    rw [h]

lemma append_bar_inj (p : List Char) :
    ∀ (q A B : List Char), '|' ∉ p → '|' ∉ q →
      p ++ '|' :: A = q ++ '|' :: B → p = q ∧ A = B := by
  induction p with
  | nil =>
      intro q A B _ hq h
      cases q with
      | nil => simpa using h
      | cons c q' =>
          rw [List.nil_append, List.cons_append, List.cons_eq_cons] at h
          exact absurd (h.1 ▸ List.mem_cons_self c q') hq
  | cons c p' ih =>
      intro q A B hp hq h
      cases q with
      | nil =>
          rw [List.cons_append, List.nil_append, List.cons_eq_cons] at h
          exact absurd (h.1 ▸ List.mem_cons_self c p') hp
      | cons d q' =>
          rw [List.cons_append, List.cons_append, List.cons_eq_cons] at h
          obtain ⟨h1, h2⟩ := ih q' A B
            (fun hc => hp (List.mem_cons_of_mem c hc))
            (fun hc => hq (List.mem_cons_of_mem d hc)) h.2
          exact ⟨by rw [h.1, h1], h2⟩

lemma joinBar_inj : ∀ ps qs : List String, ps.length = qs.length →
    (∀ p ∈ ps, '|' ∉ p.data) → (∀ q ∈ qs, '|' ∉ q.data) →
    joinBar ps = joinBar qs → ps = qs := by
  intro ps
  induction ps with
  | nil =>
      intro qs hlen _ _ _
      exact (List.length_eq_zero.mp hlen.symm).symm ▸ rfl
  | cons p ps ih =>
      intro qs hlen hp hq hj
      cases qs with
      | nil => simp at hlen
      | cons q qs' =>
          cases ps with
          | nil =>
              cases qs' with
              | nil =>
                  rw [show joinBar [p] = p from rfl, show joinBar [q] = q from rfl] at hj
                  rw [hj]
              | cons q2 qs'' => simp at hlen
          | cons p2 ps'' =>
              cases qs' with
              | nil => simp at hlen
              | cons q2 qs'' =>
                  have hdata : p.data ++ '|' :: (joinBar (p2 :: ps'')).data =
                      q.data ++ '|' :: (joinBar (q2 :: qs'')).data := by
                    have hc := congrArg String.data hj
                    rw [show joinBar (p :: p2 :: ps'') = p ++ "|" ++ joinBar (p2 :: ps'')
                        from rfl,
                      show joinBar (q :: q2 :: qs'') = q ++ "|" ++ joinBar (q2 :: qs'')
                        from rfl,
                      String.data_append, String.data_append,
                      String.data_append, String.data_append] at hc
                    simpa using hc
                  obtain ⟨h1, h2⟩ := append_bar_inj p.data (q := q.data)
                    (A := (joinBar (p2 :: ps'')).data) (B := (joinBar (q2 :: qs'')).data)
                    (hp p (List.mem_cons_self p _)) (hq q (List.mem_cons_self q _)) hdata
                  have hpq : p = q := String.ext h1
                  have htail : p2 :: ps'' = q2 :: qs'' := by
                    apply ih (q2 :: qs'') (by simpa using hlen)
                      (fun x hx => hp x (List.mem_cons_of_mem p hx))
                      (fun x hx => hq x (List.mem_cons_of_mem q hx))
                    exact String.ext h2
                  rw [hpq, htail]

/-- C8 (amended): the fingerprint separates records on the key fields
provided the `"|"` separator occurs in none of the normalized key-field
values: two such records that differ in at least one normalized key field
have different pre-hash encodings (hence different digests whenever SHA-256
is collision-free on them).  The unamended claim — that the separator is
guaranteed absent from normalized values — fails, see the counterexample. -/
theorem c8_separator_free_separation (f g : PyObj)
    (hf : ∀ k ∈ FINGERPRINT_FIELDS, '|' ∉ (normKeyField (f.get k)).data)
    (hg : ∀ k ∈ FINGERPRINT_FIELDS, '|' ∉ (normKeyField (g.get k)).data)
    (hne : ∃ k ∈ FINGERPRINT_FIELDS, normKeyField (f.get k) ≠ normKeyField (g.get k)) :
    fingerprintBase f ≠ fingerprintBase g := by
  intro hb
  obtain ⟨k, hk, hkne⟩ := hne
  have heq : FINGERPRINT_FIELDS.map (fun k => normKeyField (f.get k)) =
      FINGERPRINT_FIELDS.map (fun k => normKeyField (g.get k)) := by
    apply joinBar_inj _ _ (by simp)
    · intro p hp
      obtain ⟨k0, hk0, hk0e⟩ := List.mem_map.mp hp
      exact hk0e ▸ hf k0 hk0
    · intro q hq
      obtain ⟨k0, hk0, hk0e⟩ := List.mem_map.mp hq
      exact hk0e ▸ hg k0 hk0
    · exact hb
  exact hkne (List.map_eq_map_iff.mp heq k hk)

/-! ### Query construction (C7) -/

def c7row0 : CommonRow := ⟨1, .str "oats", .str "oats", .int 0, .str "cup", 0⟩

/-- C7 counterexample: a tag whose serving quantity is present but `0` — the
claim ("built from quantity, unit and name when quantity and unit are
present") requires the query `"0 cup oats"`, but `_build_query` tests Python
truthiness (`if qty and unit`), so `0` falls back to the name alone. -/
theorem c7_counterexample :
    _build_query c7row0 = "oats" ∧ _build_query c7row0 ≠ "0 cup oats" := by
  constructor
  · rfl
  · decide

/-- C7 (amended): the query is built from quantity, unit and name when
quantity and unit are present *and truthy* (non-zero, non-empty), else from
the name alone, where the name is the tag name when truthy, else the food
name; the claim's concrete scenarios are unchanged: `(2, "cup", "oats")`
yields `"2 cup oats"` and missing qty/unit yields `"oats"`. -/
theorem c7_query_construction :
    (∀ row : CommonRow,
      (row.serving_qty.truthy = true → row.serving_unit.truthy = true →
        _build_query row = row.serving_qty.pyStr ++ " " ++ row.serving_unit.pyStr
          ++ " " ++ (if row.tag_name.truthy then row.tag_name else row.food_name).pyStr) ∧
      (¬ (row.serving_qty.truthy = true ∧ row.serving_unit.truthy = true) →
        _build_query row =
          (if row.tag_name.truthy then row.tag_name else row.food_name).pyStr)) ∧
    _build_query ⟨1, .str "oats", .str "oats", .int 2, .str "cup", 0⟩ = "2 cup oats" ∧
    _build_query ⟨2, .str "oats", .str "oats", .none, .none, 0⟩ = "oats" := by
  refine ⟨fun row => ⟨fun hq hu => ?_, fun hn => ?_⟩, rfl, rfl⟩
  · rw [_build_query]
    simp only [hq, hu, Bool.and_self, if_true]
  · rw [_build_query]
    have : (row.serving_qty.truthy && row.serving_unit.truthy) = false := by
      cases hq : row.serving_qty.truthy with
      | false => rfl
      | true =>
          cases hu : row.serving_unit.truthy with
          | false => rfl
          | true => exact absurd ⟨hq, hu⟩ hn
    simp only [this, Bool.false_eq_true, if_false]

/-! ### Full-replace convergence (C5) -/

/-- C5: Full-replace convergence on the parent upsert.  For two rows with
equal fingerprints, writing the first and then the second yields the same
surrogate key on both writes, and a single parent row holding the second
write's column values (last write wins, full replace), whether the first
write inserted or updated. -/
theorem c5_full_replace_convergence
    (db : DB) (r1 r2 : FoodRow) (hwf : db.wfFoods)
    (hfp : r1.fingerprint = r2.fingerprint) :
    (upsertFood (upsertFood db r1).2 r2).1 = (upsertFood db r1).1 ∧
    (⟨(upsertFood db r1).1, r2⟩ : FoodEntry) ∈
      (upsertFood (upsertFood db r1).2 r2).2.nutrient_food ∧
    (upsertFood (upsertFood db r1).2 r2).2.nutrient_food.countP
      (fun e => decide (foodKey e = r2.fingerprint)) = 1 := by
  have hf2 : (upsertFood db r1).2.nutrient_food.find?
      (fun e => foodKey e == r2.fingerprint) =
      some ⟨(upsertFood db r1).1, r1⟩ := by
    rw [← hfp]
    exact upsertFood_find?_after db r1
  have hup := upsertFood_update hf2
  refine ⟨by rw [hup], ?_, ?_⟩
  · rw [hup]
    show foodUpd ⟨(upsertFood db r1).2.next_id, r2⟩ ⟨(upsertFood db r1).1, r1⟩ ∈ _
    exact mem_sqlUpsert_upd (List.mem_of_find?_eq_some hf2) hfp
  · have hwf2 : ((upsertFood (upsertFood db r1).2 r2).2).wfFoods :=
      upsertFood_wf _ r2 (upsertFood_wf db r1 hwf)
    apply countP_key_eq_one hwf2
    apply List.mem_map.mpr
    refine ⟨⟨(upsertFood db r1).1, r2⟩, ?_, rfl⟩
    rw [hup]
    show foodUpd ⟨(upsertFood db r1).2.next_id, r2⟩ ⟨(upsertFood db r1).1, r1⟩ ∈ _
    exact mem_sqlUpsert_upd (List.mem_of_find?_eq_some hf2) hfp

/-! ### Record Normalizer defaults (C9) -/

def c9bad : PyObj := .ofList [("photo", .str "x")]

/-- C9 counterexample: a food object whose `photo` field holds a truthy
non-dict value makes `_row_from_food` raise (`photg.get("thumb")` on a
string), so "no input shape causes the normalizer to fail" does not hold as
stated. -/
theorem c9_counterexample :
    _row_from_food "2024-01-01T00:00:00" c9bad =
      .error "AttributeError: object has no attribute get" := rfl

/-- The shapes under which the normalizer cannot raise: the field is falsy
(absent, `None`, `{}`, …) or an object. -/
def subObjOk (v : PyVal) : Prop := v.truthy = false ∨ ∃ fobj, v = PyVal.dict fobj

lemma subObj_dict (v : PyVal) (h : subObjOk v) :
    ∃ fobj, (if v.truthy then v else PyVal.dict .nil) = PyVal.dict fobj := by
  cases htr : v.truthy with
  | false => exact ⟨.nil, by simp [htr]⟩
  | true =>
      rcases h with h | ⟨fo, hfo⟩
      · rw [h] at htr
        cases htr
      · exact ⟨fo, by simp [htr, hfo]⟩

/-- C9 (amended): whenever the `photo`, `tags` and `metadata` fields are
each falsy or an object (the shapes the external API produces), the
normalizer succeeds; the photo thumb/highres URLs and the tag sub-fields
default to null when the corresponding sub-object (or sub-field) is absent
— for a present sub-object the row carries exactly that object's `get` of
the respective sub-field, which is null when the sub-field is missing —
and `is_raw_food` is null when the metadata sub-object is absent.  A truthy
non-object value in one of those three fields makes the normalizer raise —
see the counterexample — so the unamended "no input shape causes the
normalizer to fail" is narrowed to these shapes. -/
theorem c9_normalizer_defaults (now : String) (food : PyObj)
    (hp : subObjOk (food.get "photo")) (ht : subObjOk (food.get "tags"))
    (hm : subObjOk (food.get "metadata")) :
    ∃ r, _row_from_food now food = .ok r ∧
      (food.get "photo" = PyVal.none →
        r.photo_thumb_url = PyVal.none ∧ r.photo_highres_url = PyVal.none) ∧
      (∀ fobj, food.get "photo" = PyVal.dict fobj →
        r.photo_thumb_url = fobj.get "thumb" ∧
        r.photo_highres_url = fobj.get "highres") ∧
      (food.get "tags" = PyVal.none →
        r.tag_item = PyVal.none ∧ r.tag_measure = PyVal.none ∧
        r.tag_quantity = PyVal.none ∧ r.tag_food_group = PyVal.none ∧
        r.tag_id = PyVal.none) ∧
      (∀ fobj, food.get "tags" = PyVal.dict fobj →
        r.tag_item = fobj.get "item" ∧ r.tag_measure = fobj.get "measure" ∧
        r.tag_quantity = fobj.get "quantity" ∧
        r.tag_food_group = fobj.get "food_group" ∧
        r.tag_id = fobj.get "tag_id") ∧
      (food.get "metadata" = PyVal.none → r.is_raw_food = PyVal.none) ∧
      r.updated_at = now := by
  obtain ⟨po, hpo⟩ := subObj_dict _ hp
  obtain ⟨tg, hto⟩ := subObj_dict _ ht
  obtain ⟨mo, hmo⟩ := subObj_dict _ hm
  have hok : _row_from_food now food = .ok {
      upc := food.get "upc"
      ndb_no := food.get "ndb_no"
      nix_brand_id := food.get "nix_brand_id"
      nix_item_id := food.get "nix_item_id"
      food_name := food.get "food_name"
      brand_name := food.get "brand_name"
      serving_qty := food.get "serving_qty"
      serving_unit := food.get "serving_unit"
      serving_weight_grams := food.get "serving_weight_grams"
      nf_calories := food.get "nf_calories"
      nf_total_fat := food.get "nf_total_fat"
      nf_saturated_fat := food.get "nf_saturated_fat"
      nf_cholesterol := food.get "nf_cholesterol"
      nf_sodium := food.get "nf_sodium"
      nf_total_carbohydrate := food.get "nf_total_carbohydrate"
      nf_dietary_fiber := food.get "nf_dietary_fiber"
      nf_sugars := food.get "nf_sugars"
      nf_protein := food.get "nf_protein"
      nf_potassium := food.get "nf_potassium"
      nf_p := food.get "nf_p"
      consumed_at := food.get "consumed_at"
      meal_type := food.get "meal_type"
      source := food.get "source"
      photo_thumb_url := po.get "thumb"
      photo_highres_url := po.get "highres"
      tag_item := tg.get "item"
      tag_measure := tg.get "measure"
      tag_quantity := tg.get "quantity"
      tag_food_group := tg.get "food_group"
      tag_id := tg.get "tag_id"
      is_raw_food := if (PyVal.dict mo).truthy
        then PyVal.bool ((mo.get "is_raw_food").truthy) else PyVal.none
      fingerprint := _fingerprint food
      raw_payload := (PyVal.dict food).dumps
      updated_at := now } := by
    rw [_row_from_food, hpo, hto, hmo]
    cases hraw : (PyVal.dict mo).truthy with
    | false =>
        simp only [hraw, Bool.false_eq_true, if_false, PyVal.dictGet,
          exceptBind_ok, exceptPure]
    | true =>
        simp only [hraw, if_true, PyVal.dictGet, exceptBind_ok, exceptPure]
  refine ⟨_, hok, ?_, ?_, ?_, ?_, ?_, rfl⟩
  · intro habs
    rw [habs] at hpo
    have hnil : PyObj.nil = po := PyVal.dict.inj hpo
    subst hnil
    exact ⟨rfl, rfl⟩
  · intro fobj hfo
    rw [hfo] at hpo
    cases htr : (PyVal.dict fobj).truthy with
    | true =>
        rw [if_pos htr] at hpo
        have hpe : fobj = po := PyVal.dict.inj hpo
        subst hpe
        exact ⟨rfl, rfl⟩
    | false =>
        rw [if_neg (by rw [htr]; exact Bool.false_ne_true)] at hpo
        have hponil : PyObj.nil = po := PyVal.dict.inj hpo
        have hfnil : fobj = PyObj.nil := by
          cases fobj with
          | nil => rfl
          | cons k v tl => cases htr
        subst hponil
        subst hfnil
        exact ⟨rfl, rfl⟩
  · intro habs
    rw [habs] at hto
    have hnil : PyObj.nil = tg := PyVal.dict.inj hto
    subst hnil
    exact ⟨rfl, rfl, rfl, rfl, rfl⟩
  · intro fobj hfo
    rw [hfo] at hto
    cases htr : (PyVal.dict fobj).truthy with
    | true =>
        rw [if_pos htr] at hto
        have hte : fobj = tg := PyVal.dict.inj hto
        subst hte
        exact ⟨rfl, rfl, rfl, rfl, rfl⟩
    | false =>
        rw [if_neg (by rw [htr]; exact Bool.false_ne_true)] at hto
        have htnil : PyObj.nil = tg := PyVal.dict.inj hto
        have hfnil : fobj = PyObj.nil := by
          cases fobj with
          | nil => rfl
          | cons k v tl => cases htr
        subst htnil
        subst hfnil
        exact ⟨rfl, rfl, rfl, rfl, rfl⟩
  · intro habs
    rw [habs] at hmo
    have hnil : PyObj.nil = mo := PyVal.dict.inj hmo
    subst hnil
    rfl

/-! ### Child-row skip policy (C6) -/

lemma foldlM_middle_skip {σ : Type} (f : σ → PyVal → Except String σ) (x : PyVal)
    (hx : ∀ d, f d x = .ok d) (pre post : List PyVal) :
    ∀ d : σ, List.foldlM f d (pre ++ x :: post) = List.foldlM f d (pre ++ post) := by
  induction pre with
  | nil =>
      intro d
      rw [List.nil_append, List.nil_append, List.foldlM_cons, hx, exceptBind_ok]
  | cons p pre ih =>
      intro d
      rw [List.cons_append, List.cons_append, List.foldlM_cons, List.foldlM_cons]
      cases hfp : f d p with
      | error e => rw [exceptBind_error, exceptBind_error]
      | ok d1 =>
          rw [exceptBind_ok, exceptBind_ok]
          exact ih d1

lemma altStep_skip (fid : Nat) (m : PyObj) (hm : m.get "measure" = PyVal.none) :
    ∀ db : DB, altStep fid db (PyVal.dict m) = .ok db := by
  intro db
  have hp : altParams fid (PyVal.dict m) = .ok Option.none := by
    rw [altParams,
      show (PyVal.dict m).dictGet "measure" = .ok (m.get "measure") from rfl, hm]
    rfl
  rw [altStep, hp]
  rfl

lemma valueStep_skip (fid : Nat) (n : PyObj) (hn : n.get "attr_id" = PyVal.none) :
    ∀ db : DB, valueStep fid db (PyVal.dict n) = .ok db := by
  intro db
  have hp : valueParams fid (PyVal.dict n) = .ok Option.none := by
    rw [valueParams,
      show (PyVal.dict n).dictGet "attr_id" = .ok (n.get "attr_id") from rfl, hn]
    rfl
  rw [valueStep, hp]
  rfl

lemma altFold_fields {fid : Nat} {db : DB} {ms : List PyVal} {db' : DB}
    (h : altFold fid db ms = .ok db') :
    db'.nutrient_food = db.nutrient_food ∧ db'.nutrient_value = db.nutrient_value ∧
    db'.common_food = db.common_food ∧
    db'.common_to_nutrient_map = db.common_to_nutrient_map ∧
    db'.next_id = db.next_id := by
  rw [altFold_eq] at h
  cases hps : extractAlts fid ms with
  | error e =>
      rw [hps, exceptMap_error] at h
      cases h
  | ok ps =>
      rw [hps, exceptMap_ok] at h
      have hd :
          db' =
            { db with
              nutrient_alt_measure :=
                ps.foldl (sqlUpsert altKey altUpd) db.nutrient_alt_measure } :=
        (Except.ok.inj h).symm
      rw [hd]
      exact ⟨rfl, rfl, rfl, rfl, rfl⟩

lemma valueFold_fields {fid : Nat} {db : DB} {ns : List PyVal} {db' : DB}
    (h : valueFold fid db ns = .ok db') :
    db'.nutrient_food = db.nutrient_food ∧
    db'.nutrient_alt_measure = db.nutrient_alt_measure ∧
    db'.common_food = db.common_food ∧
    db'.common_to_nutrient_map = db.common_to_nutrient_map ∧
    db'.next_id = db.next_id := by
  rw [valueFold_eq] at h
  cases hqs : extractVals fid ns with
  | error e =>
      rw [hqs, exceptMap_error] at h
      cases h
  | ok qs =>
      rw [hqs, exceptMap_ok] at h
      have hd :
          db' =
            { db with
              nutrient_value :=
                qs.foldl (sqlUpsert valKey valUpd) db.nutrient_value } :=
        (Except.ok.inj h).symm
      rw [hd]
      exact ⟨rfl, rfl, rfl, rfl, rfl⟩

/-- C6: Child-row skip policy.  In the Upsert Writer's child loops, an
alt-measure entry with no measure label is dropped and a nutrient-value
entry with no attribute id is dropped — each without raising an error and
without affecting the sibling child rows (the loop computes exactly what it
computes with the entry removed) or the parent table (the child loops never
touch `nutrient_food`, nor each other's table). -/
theorem c6_child_skip_policy
    (fid : Nat) (db : DB)
    (preA postA preV postV : List PyVal) (m n : PyObj)
    (hm : m.get "measure" = PyVal.none)
    (hn : n.get "attr_id" = PyVal.none) :
    altFold fid db (preA ++ PyVal.dict m :: postA) =
      altFold fid db (preA ++ postA) ∧
    valueFold fid db (preV ++ PyVal.dict n :: postV) =
      valueFold fid db (preV ++ postV) ∧
    (∀ ms db', altFold fid db ms = .ok db' →
      db'.nutrient_food = db.nutrient_food ∧
      db'.nutrient_value = db.nutrient_value) ∧
    (∀ ns db', valueFold fid db ns = .ok db' →
      db'.nutrient_food = db.nutrient_food ∧
      db'.nutrient_alt_measure = db.nutrient_alt_measure) := by
  refine ⟨?_, ?_, ?_, ?_⟩
  · exact foldlM_middle_skip (altStep fid) (PyVal.dict m) (altStep_skip fid m hm)
      preA postA db
  · exact foldlM_middle_skip (valueStep fid) (PyVal.dict n) (valueStep_skip fid n hn)
      preV postV db
  · intro ms db' h
    exact ⟨(altFold_fields h).1, (altFold_fields h).2.1⟩
  · intro ns db' h
    exact ⟨(valueFold_fields h).1, (valueFold_fields h).2.1⟩

/-! ### Batch return values (C10) -/

lemma batch_cons {now : String} {db : DB} {food : PyObj} {rest : List PyObj}
    {ids : List Nat} {db' : DB}
    (h : upsert_nutrients_batch now db (food :: rest) = .ok (ids, db')) :
    ∃ i1 db1 restIds, upsertOneFood now db food = .ok (i1, db1) ∧
      upsert_nutrients_batch now db1 rest = .ok (restIds, db') ∧
      ids = i1 :: restIds := by
  rw [upsert_nutrients_batch] at h
  cases h1 : upsertOneFood now db food with
  | error e =>
      rw [h1, exceptBind_error] at h
      cases h
  | ok x =>
      obtain ⟨i1, db1⟩ := x
      rw [h1, exceptBind_ok] at h
      dsimp only at h
      cases h2 : upsert_nutrients_batch now db1 rest with
      | error e =>
          rw [h2, exceptBind_error] at h
          cases h
      | ok y =>
          obtain ⟨restIds, db2⟩ := y
          rw [h2, exceptBind_ok] at h
          simp only [exceptPure, Except.ok.injEq, Prod.mk.injEq] at h
          exact ⟨i1, db1, restIds, rfl, by rw [← h.2]; exact h2, h.1.symm⟩

lemma batch_length {now : String} : ∀ {foods : List PyObj} {db : DB}
    {ids : List Nat} {db' : DB},
    upsert_nutrients_batch now db foods = .ok (ids, db') →
    ids.length = foods.length := by
  intro foods
  induction foods with
  | nil =>
      intro db ids db' h
      rw [upsert_nutrients_batch] at h
      simp only [Except.ok.injEq, Prod.mk.injEq] at h
      rw [← h.1]
      rfl
  | cons f fs ih =>
      intro db ids db' h
      obtain ⟨i1, db1, restIds, _, h2, hids⟩ := batch_cons h
      rw [hids, List.length_cons, ih h2, List.length_cons]

/-- C10 (implicit): `upsert_nutrients_batch` returns exactly one surrogate
key per input food, in input order: the id list has the input's length, and
on a cons input it is the head food's upserted id followed by the ids of the
remaining foods, regardless of how many child rows were written or
skipped. -/
theorem c10_one_id_per_food (now : String) :
    (∀ (db : DB) (foods : List PyObj) (ids : List Nat) (db' : DB),
      upsert_nutrients_batch now db foods = .ok (ids, db') →
      ids.length = foods.length) ∧
    (∀ (db : DB) (food : PyObj) (rest : List PyObj) (ids : List Nat) (db' : DB),
      upsert_nutrients_batch now db (food :: rest) = .ok (ids, db') →
      ∃ i1 db1 restIds, upsertOneFood now db food = .ok (i1, db1) ∧
        upsert_nutrients_batch now db1 rest = .ok (restIds, db') ∧
        ids = i1 :: restIds) :=
  ⟨fun _ _ _ _ h => batch_length h, fun _ _ _ _ _ h => batch_cons h⟩

/-! ### Mapping-insert lemmas (for partial-failure isolation, C3) -/

lemma insert_mappings_cons (db : DB) (tag : Int) (a : Nat) (ids : List Nat) :
    _insert_mappings db tag (a :: ids) =
      _insert_mappings
        (if db.common_to_nutrient_map.any (fun mp => mp.1 == tag && mp.2 == a)
          then db
          else { db with common_to_nutrient_map :=
                  db.common_to_nutrient_map ++ [(tag, a)] })
        tag ids := rfl

lemma insert_mappings_mono {tag : Int} : ∀ (ids : List Nat) (db : DB)
    {x : Int × Nat}, x ∈ db.common_to_nutrient_map →
    x ∈ (_insert_mappings db tag ids).common_to_nutrient_map := by
  intro ids
  induction ids with
  | nil => intro db x h; exact h
  | cons a ids ih =>
      intro db x h
      rw [insert_mappings_cons]
      apply ih
      by_cases hc : db.common_to_nutrient_map.any (fun mp => mp.1 == tag && mp.2 == a)
      · rw [if_pos hc]; exact h
      · rw [if_neg hc]
        exact List.mem_append.mpr (Or.inl h)

lemma insert_mappings_mem {tag : Int} : ∀ (ids : List Nat) (db : DB) {nid : Nat},
    nid ∈ ids →
    (tag, nid) ∈ (_insert_mappings db tag ids).common_to_nutrient_map := by
  intro ids
  induction ids with
  | nil => intro db nid h; exact absurd h (List.not_mem_nil nid)
  | cons a ids ih =>
      intro db nid h
      rcases List.mem_cons.mp h with h | h
      · subst h
        rw [insert_mappings_cons]
        apply insert_mappings_mono
        by_cases hc : db.common_to_nutrient_map.any (fun mp => mp.1 == tag && mp.2 == nid)
        · rw [if_pos hc]
          obtain ⟨mp, hmp, hb⟩ := List.any_eq_true.mp hc
          obtain ⟨hb1, hb2⟩ := Bool.and_eq_true_iff.mp hb
          have : mp = (tag, nid) := by
            cases mp
            rw [Prod.mk.injEq]
            exact ⟨beq_iff_eq.mp hb1, beq_iff_eq.mp hb2⟩
          rw [← this]
          exact hmp
        · rw [if_neg hc]
          exact List.mem_append.mpr (Or.inr (List.mem_singleton.mpr rfl))
      · rw [insert_mappings_cons]
        exact ih _ h

lemma insert_mappings_subset {tag : Int} : ∀ (ids : List Nat) (db : DB)
    {x : Int × Nat},
    x ∈ (_insert_mappings db tag ids).common_to_nutrient_map →
    x ∈ db.common_to_nutrient_map ∨ x.1 = tag := by
  intro ids
  induction ids with
  | nil => intro db x h; exact Or.inl h
  | cons a ids ih =>
      intro db x h
      rw [insert_mappings_cons] at h
      rcases ih _ h with h' | h'
      · by_cases hc : db.common_to_nutrient_map.any (fun mp => mp.1 == tag && mp.2 == a)
        · rw [if_pos hc] at h'
          exact Or.inl h'
        · rw [if_neg hc] at h'
          rcases List.mem_append.mp h' with h'' | h''
          · exact Or.inl h''
          · right
            rw [List.mem_singleton.mp h'']
      · exact Or.inr h'

/-! ### Drainer unit-of-work lemmas and partial-failure isolation (C3) -/

/-- An external-API outcome the script treats as a hard per-tag failure:
an error status (`raise_for_status`) or a transport failure. -/
def ApiResult.isFailure : ApiResult → Bool
  | .ok _ => false
  | .httpError _ => true
  | .transportError => true

lemma conn_rollback_eq {c : Conn} (hinv : c.working = c.committed) :
    c.rollback = c := by
  cases c with
  | mk com wor =>
      rw [Conn.rollback]
      exact congrArg (Conn.mk com) hinv.symm

lemma upsertOneFood_fields {now : String} {db : DB} {food : PyObj} {i : Nat}
    {dbf : DB} (h : upsertOneFood now db food = .ok (i, dbf)) :
    dbf.common_to_nutrient_map = db.common_to_nutrient_map ∧
    dbf.common_food = db.common_food := by
  obtain ⟨row, ms, ns, ps, qs, _, _, _, _, _, _, hdb⟩ := upsertOneFood_ok h
  rw [hdb]
  exact ⟨upsertFood_map db row, upsertFood_common db row⟩

lemma batch_map_fields {now : String} : ∀ {foods : List PyObj} {db : DB}
    {ids : List Nat} {db' : DB},
    upsert_nutrients_batch now db foods = .ok (ids, db') →
    db'.common_to_nutrient_map = db.common_to_nutrient_map ∧
    db'.common_food = db.common_food := by
  intro foods
  induction foods with
  | nil =>
      intro db ids db' h
      rw [upsert_nutrients_batch] at h
      simp only [Except.ok.injEq, Prod.mk.injEq] at h
      rw [← h.2]
      exact ⟨rfl, rfl⟩
  | cons f fs ih =>
      intro db ids db' h
      obtain ⟨i1, db1, restIds, h1, h2, _⟩ := batch_cons h
      obtain ⟨ha, hb⟩ := upsertOneFood_fields h1
      obtain ⟨hc, hd⟩ := ih h2
      exact ⟨hc.trans ha, hd.trans hb⟩

lemma processTag_fail {api : String → ApiResult} {now : String} {c : Conn}
    {r : CommonRow} (hinv : c.working = c.committed)
    (hfail : (api (_build_query r)).isFailure = true) :
    (processTag api now c r).1 = c := by
  rw [processTag]
  cases hapi : api (_build_query r) with
  | ok foods =>
      rw [hapi] at hfail
      exact Bool.noConfusion hfail
  | httpError s => exact conn_rollback_eq hinv
  | transportError => exact conn_rollback_eq hinv

lemma processTag_inv {api : String → ApiResult} {now : String} {c : Conn}
    {r : CommonRow} (hinv : c.working = c.committed) :
    (processTag api now c r).1.working = (processTag api now c r).1.committed := by
  rw [processTag]
  cases hapi : api (_build_query r) with
  | httpError s => rfl
  | transportError => rfl
  | ok foods =>
      dsimp only
      by_cases hemp : foods.isEmpty = true
      · rw [if_pos hemp]
        exact hinv
      · rw [if_neg hemp]
        cases hup : upsert_nutrients_batch now c.working foods with
        | error e => rfl
        | ok y =>
            obtain ⟨ids, dbx⟩ := y
            rfl

lemma processTag_mono {api : String → ApiResult} {now : String} {c : Conn}
    {r : CommonRow} (hinv : c.working = c.committed) {x : Int × Nat}
    (hx : x ∈ c.committed.common_to_nutrient_map) :
    x ∈ (processTag api now c r).1.committed.common_to_nutrient_map := by
  rw [processTag]
  cases hapi : api (_build_query r) with
  | httpError s => exact hx
  | transportError => exact hx
  | ok foods =>
      dsimp only
      by_cases hemp : foods.isEmpty = true
      · rw [if_pos hemp]
        exact hx
      · rw [if_neg hemp]
        cases hup : upsert_nutrients_batch now c.working foods with
        | error e => exact hx
        | ok y =>
            obtain ⟨ids, dbx⟩ := y
            show x ∈ (_insert_mappings dbx r.tag_id ids).common_to_nutrient_map
            apply insert_mappings_mono
            rw [(batch_map_fields hup).1, hinv]
            exact hx

lemma processTag_notag {api : String → ApiResult} {now : String} {c : Conn}
    {r : CommonRow} (hinv : c.working = c.committed) {t0 : Int}
    (hne : r.tag_id ≠ t0)
    (h0 : ∀ nid, (t0, nid) ∉ c.committed.common_to_nutrient_map) :
    ∀ nid, (t0, nid) ∉ (processTag api now c r).1.committed.common_to_nutrient_map := by
  intro nid hc
  rw [processTag] at hc
  cases hapi : api (_build_query r) with
  | httpError s =>
      rw [hapi] at hc
      exact h0 nid hc
  | transportError =>
      rw [hapi] at hc
      exact h0 nid hc
  | ok foods =>
      rw [hapi] at hc
      dsimp only at hc
      by_cases hemp : foods.isEmpty = true
      · rw [if_pos hemp] at hc
        exact h0 nid hc
      · rw [if_neg hemp] at hc
        cases hup : upsert_nutrients_batch now c.working foods with
        | error e =>
            rw [hup] at hc
            exact h0 nid hc
        | ok y =>
            obtain ⟨ids, dbx⟩ := y
            rw [hup] at hc
            have hc' : (t0, nid) ∈
                (_insert_mappings dbx r.tag_id ids).common_to_nutrient_map := hc
            rcases insert_mappings_subset ids dbx hc' with h' | h'
            · rw [(batch_map_fields hup).1, hinv] at h'
              exact h0 nid h'
            · exact hne h'.symm

lemma processTag_success {api : String → ApiResult} {now : String} {c : Conn}
    {r : CommonRow} {foods : List PyObj}
    (hapi : api (_build_query r) = .ok foods) (hne : foods ≠ [])
    {ids : List Nat} {dbx : DB}
    (hup : upsert_nutrients_batch now c.working foods = .ok (ids, dbx)) :
    ∃ nid, (r.tag_id, nid) ∈
      (processTag api now c r).1.committed.common_to_nutrient_map := by
  have hids : ids ≠ [] := by
    intro h0
    apply hne
    have hl := batch_length hup
    rw [h0] at hl
    exact (List.length_eq_zero.mp hl.symm)
  obtain ⟨nid, hnid⟩ := List.exists_mem_of_ne_nil ids hids
  refine ⟨nid, ?_⟩
  rw [processTag, hapi]
  dsimp only
  have hempf : foods.isEmpty = false := by
    cases foods with
    | nil => exact absurd rfl hne
    | cons f fs => rfl
  rw [if_neg (by rw [hempf]; exact Bool.false_ne_true), hup]
  show (r.tag_id, nid) ∈ (_insert_mappings dbx r.tag_id ids).common_to_nutrient_map
  exact insert_mappings_mem ids dbx hnid

lemma processBatch_cons (api : String → ApiResult) (now : String) (c : Conn)
    (r : CommonRow) (rs : List CommonRow) :
    processBatch api now c (r :: rs) =
      ((processBatch api now (processTag api now c r).1 rs).1,
       (processTag api now c r).2 ::
         (processBatch api now (processTag api now c r).1 rs).2) := rfl

lemma processBatch_inv {api : String → ApiResult} {now : String} :
    ∀ (batch : List CommonRow) (c : Conn), c.working = c.committed →
    (processBatch api now c batch).1.working =
      (processBatch api now c batch).1.committed := by
  intro batch
  induction batch with
  | nil => intro c h; exact h
  | cons r rs ih =>
      intro c h
      rw [processBatch_cons]
      exact ih _ (processTag_inv h)

lemma processBatch_mono {api : String → ApiResult} {now : String} :
    ∀ (batch : List CommonRow) (c : Conn), c.working = c.committed →
    ∀ {x : Int × Nat}, x ∈ c.committed.common_to_nutrient_map →
    x ∈ (processBatch api now c batch).1.committed.common_to_nutrient_map := by
  intro batch
  induction batch with
  | nil => intro c _ x h; exact h
  | cons r rs ih =>
      intro c hinv x h
      rw [processBatch_cons]
      exact ih _ (processTag_inv hinv) (processTag_mono hinv h)

lemma processBatch_notag {api : String → ApiResult} {now : String} {t0 : Int} :
    ∀ (batch : List CommonRow) (c : Conn), c.working = c.committed →
    (∀ r ∈ batch, r.tag_id ≠ t0 ∨ (api (_build_query r)).isFailure = true) →
    (∀ nid, (t0, nid) ∉ c.committed.common_to_nutrient_map) →
    ∀ nid, (t0, nid) ∉
      (processBatch api now c batch).1.committed.common_to_nutrient_map := by
  intro batch
  induction batch with
  | nil => intro c _ _ h0; exact h0
  | cons r rs ih =>
      intro c hinv hall h0
      rw [processBatch_cons]
      rcases hall r (List.mem_cons_self r rs) with hne | hfail
      · exact ih _ (processTag_inv hinv)
          (fun q hq => hall q (List.mem_cons_of_mem r hq))
          (processTag_notag hinv hne h0)
      · rw [processTag_fail hinv hfail]
        exact ih _ hinv (fun q hq => hall q (List.mem_cons_of_mem r hq)) h0

lemma processBatch_len {api : String → ApiResult} {now : String} :
    ∀ (batch : List CommonRow) (c : Conn),
    (processBatch api now c batch).2.length = batch.length := by
  intro batch
  induction batch with
  | nil => intro c; rfl
  | cons r rs ih =>
      intro c
      rw [processBatch_cons, List.length_cons, List.length_cons, ih]

lemma processBatch_fail_skip {api : String → ApiResult} {now : String}
    {b : CommonRow} (hbfail : (api (_build_query b)).isFailure = true)
    (post : List CommonRow) :
    ∀ (pre : List CommonRow) (c : Conn), c.working = c.committed →
    (processBatch api now c (pre ++ b :: post)).1 =
      (processBatch api now c (pre ++ post)).1 := by
  intro pre
  induction pre with
  | nil =>
      intro c hinv
      rw [List.nil_append, List.nil_append, processBatch_cons,
        processTag_fail hinv hbfail]
  | cons p pre ih =>
      intro c hinv
      rw [List.cons_append, List.cons_append, processBatch_cons, processBatch_cons]
      exact ih _ (processTag_inv hinv)

/-- A tag for which the external API returns a non-empty, well-shaped foods
list that the Upsert Writer accepts (from any store state — acceptance
depends only on the payload's shape). -/
def TagSucceeds (api : String → ApiResult) (now : String) (r : CommonRow) : Prop :=
  ∃ foods, api (_build_query r) = .ok foods ∧ foods ≠ [] ∧
    ∀ dbw : DB, ∃ ids dbx, upsert_nutrients_batch now dbw foods = .ok (ids, dbx)

lemma processBatch_success_mem {api : String → ApiResult} {now : String} :
    ∀ (batch : List CommonRow) (c : Conn), c.working = c.committed →
    ∀ r ∈ batch, TagSucceeds api now r →
    ∃ nid, (r.tag_id, nid) ∈
      (processBatch api now c batch).1.committed.common_to_nutrient_map := by
  intro batch
  induction batch with
  | nil => intro c _ r hr; exact absurd hr (List.not_mem_nil r)
  | cons q rs ih =>
      intro c hinv r hr hsucc
      rw [processBatch_cons]
      rcases List.mem_cons.mp hr with rfl | h
      · obtain ⟨foods, hapi, hne, hall⟩ := hsucc
        obtain ⟨ids, dbx, hup⟩ := hall c.working
        obtain ⟨nid, hnid⟩ := processTag_success hapi hne hup
        exact ⟨nid, processBatch_mono rs _ (processTag_inv hinv) hnid⟩
      · exact ih _ (processTag_inv hinv) r h hsucc

/-- C3: Partial-failure isolation.  If, in one drain pass over a batch, the
external API fails for one tag `b` (error status or transport failure) but
succeeds with data for every other tag, then afterwards every other tag has
a committed linkage row, `b` has none (given it had none before), the
resulting connection state is exactly the state of processing the batch
with `b` removed (so no parent or child rows attributable to `b` survive —
its unit of work is rolled back), and the pass still records one outcome
per tag — the batch does not halt at `b`. -/
theorem c3_partial_failure_isolation
    (api : String → ApiResult) (now : String) (c : Conn)
    (hinv : c.working = c.committed)
    (pre post : List CommonRow) (b : CommonRow)
    (hbfail : (api (_build_query b)).isFailure = true)
    (hok : ∀ r ∈ pre ++ post, TagSucceeds api now r)
    (hb0 : ∀ nid, (b.tag_id, nid) ∉ c.committed.common_to_nutrient_map)
    (hbne : ∀ r ∈ pre ++ post, r.tag_id ≠ b.tag_id) :
    (processBatch api now c (pre ++ b :: post)).1 =
      (processBatch api now c (pre ++ post)).1 ∧
    (∀ r ∈ pre ++ post, ∃ nid, (r.tag_id, nid) ∈
      (processBatch api now c (pre ++ b :: post)).1.committed.common_to_nutrient_map) ∧
    (∀ nid, (b.tag_id, nid) ∉
      (processBatch api now c (pre ++ b :: post)).1.committed.common_to_nutrient_map) ∧
    (processBatch api now c (pre ++ b :: post)).2.length =
      (pre ++ b :: post).length := by
  refine ⟨processBatch_fail_skip hbfail post pre c hinv, ?_, ?_, ?_⟩
  · intro r hr
    have hrmem : r ∈ pre ++ b :: post := by
      rcases List.mem_append.mp hr with h | h
      · exact List.mem_append.mpr (Or.inl h)
      · exact List.mem_append.mpr (Or.inr (List.mem_cons_of_mem b h))
    exact processBatch_success_mem _ c hinv r hrmem (hok r hr)
  · apply processBatch_notag _ c hinv _ hb0
    intro r hr
    rcases List.mem_append.mp hr with h | h
    · exact Or.inl (hbne r (List.mem_append.mpr (Or.inl h)))
    · rcases List.mem_cons.mp h with rfl | h
      · exact Or.inr hbfail
      · exact Or.inl (hbne r (List.mem_append.mpr (Or.inr h)))
  · exact processBatch_len _ c

/-! ### Backlog drain termination (C4) -/

/-- A store with a single backlog tag (no linkage) whose query the external
API persistently answers with zero foods. -/
def c4db : DB := ⟨[], 1, [], [], [⟨1, .str "oats", .str "oats", .none, .none, 0⟩], []⟩

def c4conn : Conn := ⟨c4db, c4db⟩

def c4api : String → ApiResult := fun _ => .ok []

lemma c4_loop : ∀ (n : Nat) (log : List TagOutcome),
    drainLoop c4api "T" n c4conn log = Option.none := by
  intro n
  induction n with
  | zero => intro log; rfl
  | succ n ih =>
      intro log
      exact ih (log ++ [TagOutcome.skip "oats"])

/-- C4 (failing input for the termination claim): with one unlinked tag
whose query the API persistently answers with zero foods, the skipped tag
is never linked and never marked, so `_fetch_common_batch` re-selects it on
every iteration and the drain loop never observes an empty selection: no
amount of fuel makes `drainLoop` reach its stop state. -/
theorem c4_drain_nontermination :
    ¬ ∃ n res, drainLoop c4api "T" n c4conn [] = some res := by
  rintro ⟨n, res, h⟩
  rw [c4_loop n []] at h
  cases h

/-! ### Concrete witnesses -/

def dbEmpty : DB := ⟨[], 1, [], [], [], []⟩

def c1f : PyObj := .ofList [("food_name", .str " Oats "), ("nf_calories", .int 100)]

def c1g : PyObj := .ofList [("food_name", .str "oats")]

theorem c1_fingerprint_determinism_witness :
    (∀ k ∈ FINGERPRINT_FIELDS, normKeyField (c1f.get k) = normKeyField (c1g.get k)) ∧
    (_fingerprint c1f = _fingerprint c1f ∧ _fingerprint c1f = _fingerprint c1g) :=
  ⟨by decide, c1_fingerprint_determinism c1f c1g (by decide)⟩

def c2food : PyObj := .ofList [("food_name", .str "Oats"),
  ("alt_measures", .list (.ofList [
    .dict (.ofList [("measure", .str "cup"), ("qty", .int 1),
      ("serving_weight", .int 81)])])),
  ("full_nutrients", .list (.ofList [
    .dict (.ofList [("attr_id", .int 208), ("value", .int 389)])]))]

def c2run1 : Nat × DB := ((upsertOneFood "T" dbEmpty c2food).toOption).getD (0, dbEmpty)

def c2run2 : Nat × DB := ((upsertOneFood "T" c2run1.2 c2food).toOption).getD (0, dbEmpty)

theorem c2_upsert_idempotence_witness :
    dbEmpty.wfFoods ∧ dbEmpty.wfAlts ∧ dbEmpty.wfValues ∧
    upsertOneFood "T" dbEmpty c2food = .ok (c2run1.1, c2run1.2) ∧
    upsertOneFood "T" c2run1.2 c2food = .ok (c2run2.1, c2run2.2) ∧
    c2run2.1 = c2run1.1 ∧ c2run2.2 = c2run1.2 := by
  have hwfF : dbEmpty.wfFoods := List.nodup_nil
  have hwfA : dbEmpty.wfAlts := List.nodup_nil
  have hwfV : dbEmpty.wfValues := List.nodup_nil
  have h1 : upsertOneFood "T" dbEmpty c2food = .ok (c2run1.1, c2run1.2) := rfl
  have h2 : upsertOneFood "T" c2run1.2 c2food = .ok (c2run2.1, c2run2.2) := rfl
  have hc := c2_upsert_idempotence "T" dbEmpty c2food hwfF hwfA hwfV
    c2run1.1 c2run2.1 c2run1.2 c2run2.2 h1 h2
  exact ⟨hwfF, hwfA, hwfV, h1, h2, hc.1, hc.2.1⟩

def c3tagA : CommonRow := ⟨1, .str "apple", .str "apple", .none, .none, 0⟩

def c3tagB : CommonRow := ⟨2, .str "banana", .str "banana", .none, .none, 0⟩

def c3tagC : CommonRow := ⟨3, .str "carrot", .str "carrot", .none, .none, 0⟩

def c3api : String → ApiResult := fun q =>
  if q = "banana" then .httpError 500
  else .ok [.ofList [("food_name", .str q)]]

def c3conn : Conn := ⟨dbEmpty, dbEmpty⟩

theorem c3_partial_failure_isolation_witness :
    c3conn.working = c3conn.committed ∧
    (c3api (_build_query c3tagB)).isFailure = true ∧
    (∀ r ∈ [c3tagA] ++ [c3tagC], TagSucceeds c3api "T" r) ∧
    (∀ nid, (c3tagB.tag_id, nid) ∉ c3conn.committed.common_to_nutrient_map) ∧
    (∀ r ∈ [c3tagA] ++ [c3tagC], r.tag_id ≠ c3tagB.tag_id) ∧
    (processBatch c3api "T" c3conn ([c3tagA] ++ c3tagB :: [c3tagC])).1 =
      (processBatch c3api "T" c3conn ([c3tagA] ++ [c3tagC])).1 := by
  have hinv : c3conn.working = c3conn.committed := rfl
  have hbfail : (c3api (_build_query c3tagB)).isFailure = true := rfl
  have hok : ∀ r ∈ [c3tagA] ++ [c3tagC], TagSucceeds c3api "T" r := by
    intro r hr
    rcases List.mem_append.mp hr with h | h
    · rw [List.mem_singleton.mp h]
      exact ⟨[.ofList [("food_name", .str "apple")]], rfl, by decide,
        fun dbw => ⟨_, _, rfl⟩⟩
    · rw [List.mem_singleton.mp h]
      exact ⟨[.ofList [("food_name", .str "carrot")]], rfl, by decide,
        fun dbw => ⟨_, _, rfl⟩⟩
  have hb0 : ∀ nid, (c3tagB.tag_id, nid) ∉ c3conn.committed.common_to_nutrient_map :=
    fun nid h => absurd h (List.not_mem_nil _)
  have hbne : ∀ r ∈ [c3tagA] ++ [c3tagC], r.tag_id ≠ c3tagB.tag_id := by decide
  have hc := c3_partial_failure_isolation c3api "T" c3conn hinv
    [c3tagA] [c3tagC] c3tagB hbfail hok hb0 hbne
  exact ⟨hinv, hbfail, hok, hb0, hbne, hc.1⟩

/-- A parent row with the given food name and fingerprint; all other
columns null/empty (helper for concrete inputs). -/
def mkRow (name : PyVal) (fp : String) : FoodRow :=
  { upc := .none, ndb_no := .none, nix_brand_id := .none, nix_item_id := .none,
    food_name := name, brand_name := .none, serving_qty := .none,
    serving_unit := .none, serving_weight_grams := .none, nf_calories := .none,
    nf_total_fat := .none, nf_saturated_fat := .none, nf_cholesterol := .none,
    nf_sodium := .none, nf_total_carbohydrate := .none, nf_dietary_fiber := .none,
    nf_sugars := .none, nf_protein := .none, nf_potassium := .none, nf_p := .none,
    consumed_at := .none, meal_type := .none, source := .none,
    photo_thumb_url := .none, photo_highres_url := .none, tag_item := .none,
    tag_measure := .none, tag_quantity := .none, tag_food_group := .none,
    tag_id := .none, is_raw_food := .none, fingerprint := fp,
    raw_payload := "", updated_at := "T" }

theorem c5_full_replace_convergence_witness :
    dbEmpty.wfFoods ∧
    (mkRow (.str "a") "f0").fingerprint = (mkRow (.str "b") "f0").fingerprint ∧
    (upsertFood (upsertFood dbEmpty (mkRow (.str "a") "f0")).2
        (mkRow (.str "b") "f0")).1 =
      (upsertFood dbEmpty (mkRow (.str "a") "f0")).1 ∧
    (⟨(upsertFood dbEmpty (mkRow (.str "a") "f0")).1,
        mkRow (.str "b") "f0"⟩ : FoodEntry) ∈
      (upsertFood (upsertFood dbEmpty (mkRow (.str "a") "f0")).2
        (mkRow (.str "b") "f0")).2.nutrient_food ∧
    (upsertFood (upsertFood dbEmpty (mkRow (.str "a") "f0")).2
        (mkRow (.str "b") "f0")).2.nutrient_food.countP
      (fun e => decide (foodKey e = (mkRow (.str "b") "f0").fingerprint)) = 1 := by
  have hwf : dbEmpty.wfFoods := List.nodup_nil
  have hfp : (mkRow (.str "a") "f0").fingerprint =
      (mkRow (.str "b") "f0").fingerprint := rfl
  have hc := c5_full_replace_convergence dbEmpty
    (mkRow (.str "a") "f0") (mkRow (.str "b") "f0") hwf hfp
  exact ⟨hwf, hfp, hc.1, hc.2.1, hc.2.2⟩

def c6m : PyObj := .ofList [("qty", .int 2)]

def c6n : PyObj := .ofList [("value", .int 9)]

def c6good : PyVal := .dict (.ofList
  [("measure", .str "cup"), ("qty", .int 1), ("serving_weight", .int 81)])

def c6goodV : PyVal := .dict (.ofList [("attr_id", .int 208), ("value", .int 389)])

theorem c6_child_skip_policy_witness :
    c6m.get "measure" = PyVal.none ∧
    c6n.get "attr_id" = PyVal.none ∧
    altFold 1 dbEmpty ([c6good] ++ PyVal.dict c6m :: []) =
      altFold 1 dbEmpty ([c6good] ++ []) ∧
    valueFold 1 dbEmpty ([c6goodV] ++ PyVal.dict c6n :: []) =
      valueFold 1 dbEmpty ([c6goodV] ++ []) := by
  have hm : c6m.get "measure" = PyVal.none := rfl
  have hn : c6n.get "attr_id" = PyVal.none := rfl
  have hc := c6_child_skip_policy 1 dbEmpty [c6good] [] [c6goodV] [] c6m c6n hm hn
  exact ⟨hm, hn, hc.1, hc.2.1⟩

theorem c7_query_construction_witness :
    (PyVal.int 2).truthy = true ∧ (PyVal.str "cup").truthy = true ∧
    _build_query ⟨1, .str "oats", .str "oats", .int 2, .str "cup", 0⟩ =
      (PyVal.int 2).pyStr ++ " " ++ (PyVal.str "cup").pyStr ++ " " ++
        (if (PyVal.str "oats").truthy then PyVal.str "oats"
          else PyVal.str "oats").pyStr := by
  refine ⟨rfl, rfl, ?_⟩
  exact ((c7_query_construction.1 ⟨1, .str "oats", .str "oats", .int 2, .str "cup", 0⟩).1
    rfl rfl)

def c8wf : PyObj := .ofList [("food_name", .str "Oats")]

def c8wg : PyObj := .ofList [("food_name", .str "Rice")]

theorem c8_separator_free_separation_witness :
    (∀ k ∈ FINGERPRINT_FIELDS, '|' ∉ (normKeyField (c8wf.get k)).data) ∧
    (∀ k ∈ FINGERPRINT_FIELDS, '|' ∉ (normKeyField (c8wg.get k)).data) ∧
    (∃ k ∈ FINGERPRINT_FIELDS, normKeyField (c8wf.get k) ≠ normKeyField (c8wg.get k)) ∧
    fingerprintBase c8wf ≠ fingerprintBase c8wg := by
  have h1 : ∀ k ∈ FINGERPRINT_FIELDS, '|' ∉ (normKeyField (c8wf.get k)).data := by
    decide
  have h2 : ∀ k ∈ FINGERPRINT_FIELDS, '|' ∉ (normKeyField (c8wg.get k)).data := by
    decide
  have h3 : ∃ k ∈ FINGERPRINT_FIELDS,
      normKeyField (c8wf.get k) ≠ normKeyField (c8wg.get k) := by decide
  exact ⟨h1, h2, h3, c8_separator_free_separation c8wf c8wg h1 h2 h3⟩

def c9food : PyObj := .ofList [("food_name", .str "Oats")]

theorem c9_normalizer_defaults_witness :
    subObjOk (c9food.get "photo") ∧ subObjOk (c9food.get "tags") ∧
    subObjOk (c9food.get "metadata") ∧
    (∃ r, _row_from_food "T" c9food = .ok r ∧
      (c9food.get "photo" = PyVal.none →
        r.photo_thumb_url = PyVal.none ∧ r.photo_highres_url = PyVal.none) ∧
      (∀ fobj, c9food.get "photo" = PyVal.dict fobj →
        r.photo_thumb_url = fobj.get "thumb" ∧
        r.photo_highres_url = fobj.get "highres") ∧
      (c9food.get "tags" = PyVal.none →
        r.tag_item = PyVal.none ∧ r.tag_measure = PyVal.none ∧
        r.tag_quantity = PyVal.none ∧ r.tag_food_group = PyVal.none ∧
        r.tag_id = PyVal.none) ∧
      (∀ fobj, c9food.get "tags" = PyVal.dict fobj →
        r.tag_item = fobj.get "item" ∧ r.tag_measure = fobj.get "measure" ∧
        r.tag_quantity = fobj.get "quantity" ∧
        r.tag_food_group = fobj.get "food_group" ∧
        r.tag_id = fobj.get "tag_id") ∧
      (c9food.get "metadata" = PyVal.none → r.is_raw_food = PyVal.none) ∧
      r.updated_at = "T") := by
  have hp : subObjOk (c9food.get "photo") := Or.inl rfl
  have ht : subObjOk (c9food.get "tags") := Or.inl rfl
  have hm : subObjOk (c9food.get "metadata") := Or.inl rfl
  exact ⟨hp, ht, hm, c9_normalizer_defaults "T" c9food hp ht hm⟩

def c10food : PyObj := .ofList [("food_name", .str "Oats")]

def c10run : List Nat × DB :=
  ((upsert_nutrients_batch "T" dbEmpty [c10food]).toOption).getD ([], dbEmpty)

theorem c10_one_id_per_food_witness :
    upsert_nutrients_batch "T" dbEmpty [c10food] = .ok (c10run.1, c10run.2) ∧
    (c10run.1).length = [c10food].length := by
  have h : upsert_nutrients_batch "T" dbEmpty [c10food] = .ok (c10run.1, c10run.2) :=
    rfl
  exact ⟨h, (c10_one_id_per_food "T").1 dbEmpty [c10food] c10run.1 c10run.2 h⟩
